import Mathlib

/-!
# GoSlice: the bottom-infill modifier and the slicing pipeline

A shallow embedding of `modify/infill.go` (`infillModifier.Modify`) and of
`slicer.go` (`GoSlice.Process` and the sparse-infill `PatternSetup` of `NewGoSlice`).

Collaborators whose code lives in other packages (`clip`, `data`, `handle`, ...) are
parameters of the model.  Go run-time panics are an explicit outcome.
-/

namespace Slicing

/-! ## Data model -/

/-- Modelled from the spec: `data.MicroPoint`, a 2D point in integer micrometers. -/
structure MicroPoint where
  x : Int
  y : Int
deriving DecidableEq, Repr

/-- Modelled from the spec: `data.Path`, an ordered sequence of points. -/
abbrev Path := List MicroPoint

/-- Modelled from the spec: `data.Paths`, an ordered sequence of paths. -/
abbrev Paths := List Path

/-- Modelled from the spec: `data.LayerPart`, an outline with zero or more holes. -/
structure LayerPart where
  outline : Path
  holes : List Path
deriving DecidableEq, Repr

/-- Modelled from the spec: `clip.Pattern`, a lazy value object that carries the
parameters it was built from. -/
structure Pattern where
  min : MicroPoint
  max : MicroPoint
  spacing : Int
deriving DecidableEq, Repr

/-- The dynamic payload (`interface{}`) stored under a key of a layer's attribute map.
Only the dynamic type matters to the type assertion in `Modify`. -/
inductive AttrValue where
  /-- A value of dynamic type `[][][]data.LayerPart`. -/
  | layerParts3 (v : List (List (List LayerPart)))
  /-- A value of dynamic type `[]data.Paths`. -/
  | pathsList (v : List Paths)
  /-- A value of any other dynamic type. -/
  | other (tag : String)
deriving DecidableEq, Repr

/-- Modelled from the spec: `data.PartitionedLayer`, seen through the three accessors the
code uses: `LayerParts()`, `Bounds()` and `Attributes()` (a `map[string]interface{}`). -/
structure PartitionedLayer where
  LayerParts : List LayerPart
  Bounds : MicroPoint × MicroPoint
  Attributes : String → Option AttrValue

/-- Go map assignment `attributes[key] = value`. -/
def PartitionedLayer.setAttr (l : PartitionedLayer) (key : String) (value : AttrValue) :
    PartitionedLayer :=
  { l with Attributes := fun k => if k = key then some value else l.Attributes k }

/-- Modelled from the spec: `newTypedLayer` (defined outside `infill.go`) builds the new
layer object of a modifier, which carries the prior attributes of the layer it wraps and
answers `LayerParts()` and `Bounds()` like it. -/
def newTypedLayer (layer : PartitionedLayer) : PartitionedLayer :=
  { LayerParts := layer.LayerParts, Bounds := layer.Bounds, Attributes := layer.Attributes }

/-- The fields of `data.PrintOptions` read by the modelled code. -/
structure PrintOptions where
  InfillOverlapPercent : Int
  InfillPercent : Int
deriving DecidableEq, Repr

/-- The fields of `data.PrinterOptions` read by the modelled code. -/
structure PrinterOptions where
  ExtrusionWidth : Int
deriving DecidableEq, Repr

/-- The part of `data.Options` read by the modelled code. -/
structure Options where
  Print : PrintOptions
  Printer : PrinterOptions
deriving DecidableEq, Repr

/-- The defaults set by `NewGoSlice`. -/
def defaultOptions : Options :=
  { Print := { InfillOverlapPercent := 50, InfillPercent := 20 },
    Printer := { ExtrusionWidth := 400 } }

/-- A Go `error` value that is not nil. -/
structure GoError where
  msg : String
deriving DecidableEq, Repr

/-- The clipper of package `clip` (a parameter: its code is not part of the model).
`Difference` returns the result and the `ok` flag; the clip area of `Fill` may be nil. -/
structure Clipper where
  LinearPattern : MicroPoint → MicroPoint → Int → Pattern
  Difference : LayerPart → List LayerPart → List LayerPart × Bool
  Fill : LayerPart → Option LayerPart → Int → Pattern → Int → Int → Paths

/-- A call made on the clipper, with its arguments. -/
inductive ClipCall where
  | linearPattern (min max : MicroPoint) (spacing : Int)
  | difference (subject : LayerPart) (clips : List LayerPart)
  | fill (fillArea : LayerPart) (clipArea : Option LayerPart) (lineWidth : Int)
      (pattern : Pattern) (overlapPercent : Int) (additionalInternalOverlap : Int)
deriving DecidableEq, Repr

/-- Whether a clipper call is a `Difference` call. -/
def ClipCall.isDifference : ClipCall → Bool
  | .difference _ _ => true
  | _ => false

/-- Whether a clipper call is a `Difference` call on which the clipper reports `ok = false`. -/
def ClipCall.failsOn (c : Clipper) : ClipCall → Bool
  | .difference subject clips => !(c.Difference subject clips).2
  | _ => false

/-! ## `modify/infill.go` -/

/-- The constant `internalInfillOverlap`. -/
def internalInfillOverlap : Int := 2

/-- Go slice indexing `xs[i]` with an `int` index: `none` stands for the run-time panic
on an index out of range. -/
def index? {α : Type} (xs : List α) (i : Int) : Option α :=
  if i < 0 then none else xs[i.toNat]?

/-- How the loops of `Modify` end. -/
inductive LoopExit where
  /-- The loop ran to its end with this value of `bottomInfill`. -/
  | done (bottomInfill : List Paths)
  /-- The function returned `nil, err` from inside the loop. -/
  | failed (err : GoError)
  /-- An index was out of range. -/
  | panicked

/-- The end of a loop together with the clipper calls made so far. -/
structure LoopRun where
  exit : LoopExit
  calls : List ClipCall

/-- The `Fill` call of line 65, on one region of the difference, appended to `bottomInfill`. -/
def fillStep (c : Clipper) (o : Options) (pattern : Pattern) (insetPart : LayerPart)
    (acc : List Paths × List ClipCall) (fill : LayerPart) : List Paths × List ClipCall :=
  (acc.1 ++ [c.Fill fill (some insetPart) o.Printer.ExtrusionWidth pattern
      o.Print.InfillOverlapPercent (internalInfillOverlap * 100)],
   acc.2 ++ [ClipCall.fill fill (some insetPart) o.Printer.ExtrusionWidth pattern
      o.Print.InfillOverlapPercent (internalInfillOverlap * 100)])

/-- The inner loop of `Modify` (lines 42-67) over the islands of the innermost inset. -/
def islandLoop (c : Clipper) (o : Options) (layerNr : Int) (layers : List PartitionedLayer)
    (pattern : Pattern) : List LayerPart → List Paths → List ClipCall → LoopRun
  | [], bottomInfill, calls => ⟨LoopExit.done bottomInfill, calls⟩
  | insetPart :: rest, bottomInfill, calls =>
    if layerNr = 0 then
      islandLoop c o layerNr layers pattern rest
        (bottomInfill ++ [c.Fill insetPart none o.Printer.ExtrusionWidth pattern
          o.Print.InfillOverlapPercent (internalInfillOverlap * 100)])
        (calls ++ [ClipCall.fill insetPart none o.Printer.ExtrusionWidth pattern
          o.Print.InfillOverlapPercent (internalInfillOverlap * 100)])
    else
      match index? layers (layerNr - 1) with
      | none => ⟨LoopExit.panicked, calls⟩
      | some below =>
        let toClipBelow := below.LayerParts.foldl (fun acc belowPart => acc ++ [belowPart]) []
        let calls1 := calls ++ [ClipCall.difference insetPart toClipBelow]
        let res := c.Difference insetPart toClipBelow
        if res.2 = false then
          ⟨LoopExit.failed ⟨"error while calculating difference with previous layer for detecting bottom parts"⟩,
            calls1⟩
        else
          let r := res.1.foldl (fillStep c o pattern insetPart) (bottomInfill, calls1)
          islandLoop c o layerNr layers pattern rest r.1 r.2

/-- The outer loop of `Modify` (lines 40-68) over the parts of `perimeters`. -/
def partLoop (c : Clipper) (o : Options) (layerNr : Int) (layers : List PartitionedLayer)
    (pattern : Pattern) : List (List (List LayerPart)) → List Paths → List ClipCall → LoopRun
  | [], bottomInfill, calls => ⟨LoopExit.done bottomInfill, calls⟩
  | part :: rest, bottomInfill, calls =>
    match index? part ((part.length : Int) - 1) with
    | none => ⟨LoopExit.panicked, calls⟩
    | some innermost =>
      match islandLoop c o layerNr layers pattern innermost bottomInfill calls with
      | ⟨LoopExit.done bottomInfill1, calls1⟩ =>
        partLoop c o layerNr layers pattern rest bottomInfill1 calls1
      | r => r

/-- What a call of `Modify` does: it returns `layers, nil`, returns `nil, err`, or panics. -/
inductive ModifyOutcome where
  | returned (layers : List PartitionedLayer)
  | failed (err : GoError)
  | panicked

/-- The outcome of `Modify` together with the clipper calls it made, in order. -/
structure ModifyRun where
  outcome : ModifyOutcome
  calls : List ClipCall

/-- Lines 70-73: the new layer, with `bottom` set when `bottomInfill` is not empty. -/
def withBottom (layer : PartitionedLayer) (bottomInfill : List Paths) : PartitionedLayer :=
  if bottomInfill.length > 0 then
    (newTypedLayer layer).setAttr "bottom" (AttrValue.pathsList bottomInfill)
  else newTypedLayer layer

/-- Lines 70-77 of `Modify`, after the loops: the new layer replaces `layers[layerNr]`
and the stack is returned with a nil error; an early return or a panic inside the loops
is the outcome of `Modify`. -/
def finish (layerNr : Int) (layers : List PartitionedLayer) (layer : PartitionedLayer) :
    LoopRun → ModifyRun
  | ⟨LoopExit.done bottomInfill, calls⟩ =>
    ⟨ModifyOutcome.returned (layers.set layerNr.toNat (withBottom layer bottomInfill)), calls⟩
  | ⟨LoopExit.failed err, calls⟩ => ⟨ModifyOutcome.failed err, calls⟩
  | ⟨LoopExit.panicked, calls⟩ => ⟨ModifyOutcome.panicked, calls⟩

/-- The method `infillModifier.Modify(layerNr, layers)`, for the clipper `c` made by
`clip.NewClipper()` and the options `o` of the modifier.  `layers[layerNr]` is read
once: nothing writes to `layers` before line 75. -/
def Modify (c : Clipper) (o : Options) (layerNr : Int) (layers : List PartitionedLayer) :
    ModifyRun :=
  match index? layers layerNr with
  | none => ⟨ModifyOutcome.panicked, []⟩
  | some layer =>
    match layer.Attributes "perimeters" with
    | some (AttrValue.layerParts3 perimeters) =>
      let pattern := c.LinearPattern layer.Bounds.1 layer.Bounds.2 o.Printer.ExtrusionWidth
      finish layerNr layers layer
        (partLoop c o layerNr layers pattern perimeters []
          [ClipCall.linearPattern layer.Bounds.1 layer.Bounds.2 o.Printer.ExtrusionWidth])
    | _ => ⟨ModifyOutcome.returned layers, []⟩

/-! ## `slicer.go`: `GoSlice.Process` -/

/-- Modelled from the spec: `data.MicroVec3`, a 3D point in integer micrometers. -/
structure MicroVec3 where
  x : Int
  y : Int
  z : Int
deriving DecidableEq, Repr

/-- Modelled from the spec: a triangle, three points in input order. -/
structure Triangle where
  a : MicroVec3
  b : MicroVec3
  c : MicroVec3
deriving DecidableEq, Repr

/-- Modelled from the spec: `data.Model`, the raw model, a sequence of triangles. -/
abbrev Model := List Triangle

/-- The interface `data.OptimizedModel`, seen through the one method `Process` calls on it.
`W` is the state of everything outside the program (files, collaborator state). -/
structure OptimizedModel (W : Type) where
  SaveDebugSTL : String → W → W

/-- The interface `handle.ModelReader`. -/
structure ModelReader (W : Type) where
  Read : String → W → Except GoError (List Model) × W

/-- The interface `handle.ModelOptimizer`. -/
structure ModelOptimizer (W : Type) where
  Optimize : Model → W → Except GoError (OptimizedModel W) × W

/-- The interface `handle.ModelSlicer`. -/
structure ModelSlicer (W : Type) where
  Slice : OptimizedModel W → W → Except GoError (List PartitionedLayer) × W

/-- The interface `handle.LayerModifier`. -/
structure LayerModifier (W : Type) where
  Init : OptimizedModel W → W → W
  Modify : Int → List PartitionedLayer → W → ModifyOutcome × W

/-- The interface `handle.GCodeGenerator`. -/
structure GCodeGenerator (W : Type) where
  Init : OptimizedModel W → W → W
  Generate : List PartitionedLayer → W → String × W

/-- The interface `handle.GCodeWriter`; `none` is the nil error. -/
structure GCodeWriter (W : Type) where
  Write : String → String → W → Option GoError × W

/-- The struct `GoSlice` (the options are not read by `Process`). -/
structure GoSlice (W : Type) where
  reader : ModelReader W
  optimizer : ModelOptimizer W
  slicer : ModelSlicer W
  modifiers : List (LayerModifier W)
  generator : GCodeGenerator W
  writer : GCodeWriter W

/-- A call `Process` makes on a collaborator, with what the call returned.  `modifierInit k`
and `modify k ..` are calls on the modifier at position `k` of `s.modifiers`. -/
inductive Event where
  | read (filename : String) (err : Option GoError)
  | optimize (err : Option GoError)
  | saveDebugSTL
  | slice (err : Option GoError)
  | modifierInit (k : Nat)
  | modify (k : Nat) (layerNr : Int) (result : ModifyOutcome)
  | generatorInit
  | generate (layers : List PartitionedLayer)
  | write (gcode : String) (outFilename : String) (err : Option GoError)

/-- How the modifier stage of `Process` ends. -/
inductive StageExit where
  /-- Every loop ran to its end; the value of `layers`. -/
  | done (layers : List PartitionedLayer)
  /-- `Process` returned `err` from inside the loop. -/
  | failed (err : GoError)
  /-- A `Modify` call panicked. -/
  | panicked

/-- The end of the modifier stage, the calls made so far and the outside state. -/
structure StageRun (W : Type) where
  exit : StageExit
  trace : List Event
  world : W

/-- The inner loop of `Process` (lines 147-152), `for layerNr := range layers`.  The range
expression is evaluated once, before the loop, so the loop runs `remaining` more times from
`layerNr` on whatever `Modify` assigns to `layers`. -/
def layerLoop {W : Type} (m : LayerModifier W) (k : Nat) :
    Nat → Nat → List PartitionedLayer → W → List Event → StageRun W
  | 0, _, layers, w, trace => ⟨StageExit.done layers, trace, w⟩
  | remaining + 1, layerNr, layers, w, trace =>
    match m.Modify layerNr layers w with
    | (ModifyOutcome.returned layers1, w1) =>
      layerLoop m k remaining (layerNr + 1) layers1 w1
        (trace ++ [Event.modify k layerNr (ModifyOutcome.returned layers1)])
    | (ModifyOutcome.failed err, w1) =>
      ⟨StageExit.failed err, trace ++ [Event.modify k layerNr (ModifyOutcome.failed err)], w1⟩
    | (ModifyOutcome.panicked, w1) =>
      ⟨StageExit.panicked, trace ++ [Event.modify k layerNr ModifyOutcome.panicked], w1⟩

/-- The outer loop of `Process` (lines 145-153), `for _, m := range s.modifiers`; `k` is the
position of the first modifier of the list in `s.modifiers`. -/
def modifierLoop {W : Type} (optimizedModel : OptimizedModel W) :
    List (LayerModifier W) → Nat → List PartitionedLayer → W → List Event → StageRun W
  | [], _, layers, w, trace => ⟨StageExit.done layers, trace, w⟩
  | m :: rest, k, layers, w, trace =>
    match layerLoop m k layers.length 0 layers (m.Init optimizedModel w)
        (trace ++ [Event.modifierInit k]) with
    | ⟨StageExit.done layers1, trace1, w1⟩ => modifierLoop optimizedModel rest (k + 1) layers1 w1 trace1
    | r => r

/-- What a call of `Process` does: it returns an error value (`none` is nil) or panics. -/
inductive ProcessOutcome where
  | returned (err : Option GoError)
  | panicked
deriving DecidableEq

/-- The outcome of `Process`, the collaborator calls it made in order, and the outside
state it leaves. -/
structure ProcessRun (W : Type) where
  outcome : ProcessOutcome
  trace : List Event
  world : W

/-- Lines 155-163 of `Process`: g-code generation and writing.  The result of `Write` is
assigned to `err`, which is not read again: the function ends with `return nil`. -/
def generateAndWrite {W : Type} (s : GoSlice W) (optimizedModel : OptimizedModel W)
    (outFilename : String) (layers : List PartitionedLayer) (w : W) (trace : List Event) :
    ProcessRun W :=
  let w1 := s.generator.Init optimizedModel w
  let gcode := s.generator.Generate layers w1
  let err := s.writer.Write gcode.1 outFilename gcode.2
  ⟨ProcessOutcome.returned none,
    trace ++ [Event.generatorInit, Event.generate layers, Event.write gcode.1 outFilename err.1],
    err.2⟩

/-- The method `GoSlice.Process(filename, outFilename)`, run from the outside state `w`.
Timing and console output are left out. -/
def Process {W : Type} (s : GoSlice W) (filename outFilename : String) (w : W) : ProcessRun W :=
  match s.reader.Read filename w with
  | (Except.error err, w1) =>
    ⟨ProcessOutcome.returned (some err), [Event.read filename (some err)], w1⟩
  | (Except.ok models, w1) =>
    match index? models 0 with
    | none => ⟨ProcessOutcome.panicked, [Event.read filename none], w1⟩
    | some model =>
      match s.optimizer.Optimize model w1 with
      | (Except.error err, w2) =>
        ⟨ProcessOutcome.returned (some err),
          [Event.read filename none, Event.optimize (some err)], w2⟩
      | (Except.ok optimizedModel, w2) =>
        match s.slicer.Slice optimizedModel (optimizedModel.SaveDebugSTL "test.stl" w2) with
        | (Except.error err, w4) =>
          ⟨ProcessOutcome.returned (some err),
            [Event.read filename none, Event.optimize none, Event.saveDebugSTL,
              Event.slice (some err)], w4⟩
        | (Except.ok layers, w4) =>
          match modifierLoop optimizedModel s.modifiers 0 layers w4
              [Event.read filename none, Event.optimize none, Event.saveDebugSTL,
                Event.slice none] with
          | ⟨StageExit.failed err, trace, w5⟩ => ⟨ProcessOutcome.returned (some err), trace, w5⟩
          | ⟨StageExit.panicked, trace, w5⟩ => ⟨ProcessOutcome.panicked, trace, w5⟩
          | ⟨StageExit.done layers1, trace, w5⟩ =>
            generateAndWrite s optimizedModel outFilename layers1 w5 trace

/-! ## `slicer.go`: the sparse-infill `PatternSetup` of `NewGoSlice` -/

/-- Rounding of a rational to an integer: to nearest, ties to even. -/
def roundHalfEven (y : ℚ) : Int :=
  if y - ⌊y⌋ < 1 / 2 then ⌊y⌋
  else if 1 / 2 < y - ⌊y⌋ then ⌊y⌋ + 1
  else if ⌊y⌋ % 2 = 0 then ⌊y⌋ else ⌊y⌋ + 1

/-- IEEE 754 binary64 rounding of a rational: the nearest number with 53 significant bits,
ties to even.  A finite float64 is modelled by the rational it denotes.  The exponent is
not bounded: no value below reaches the overflow or subnormal range, since every operand
comes from an `int64` and the only constants are `100` and `10000`. -/
def roundFloat64 (x : ℚ) : ℚ :=
  if x = 0 then 0
  else (roundHalfEven (x * (2 : ℚ) ^ (52 - Int.log 2 |x|)) : ℚ) * (2 : ℚ) ^ (Int.log 2 |x| - 52)

/-- The rationals with at most 53 significant bits (the finite float64 values, exponent
range apart). -/
def IsFloat64 (r : ℚ) : Prop := ∃ k j : Int, |k| < 2 ^ 53 ∧ r = (k : ℚ) * (2 : ℚ) ^ j

/-- The conversion `float64(n)` of an integer. -/
def float64OfInt (n : Int) : ℚ := roundFloat64 n

/-- The float64 product `a * b` of two finite values. -/
def float64Mul (a b : ℚ) : ℚ := roundFloat64 (a * b)

/-- The float64 quotient `a / b` of two finite values; `none` when the result is not
finite (division by zero gives an infinity or NaN). -/
def float64Div (a b : ℚ) : Option ℚ :=
  if b = 0 then none else some (roundFloat64 (a / b))

/-- The conversion `data.Micrometer(f)` of a finite float64 to `int64`: the fraction is
discarded (truncation towards zero); `none` when the value does not fit, where the result
is implementation-specific. -/
def micrometerOfFloat64 (f : ℚ) : Option Int :=
  if -(2 : Int) ^ 63 ≤ (if 0 ≤ f then ⌊f⌋ else ⌈f⌉)
      ∧ (if 0 ≤ f then ⌊f⌋ else ⌈f⌉) < (2 : Int) ^ 63 then
    some (if 0 ≤ f then ⌊f⌋ else ⌈f⌉)
  else none

/-- What the `PatternSetup` of the sparse `infill` renderer does. -/
inductive SetupResult where
  /-- It returns `clip.NewLinearPattern(min, max, lineWidth)`. -/
  | linearPattern (min max : MicroPoint) (lineWidth : Int)
  /-- It returns nil. -/
  | nilPattern
  /-- Integer division by zero. -/
  | panicked
  /-- A float64 that is not finite is converted to `Micrometer`: the result is
  implementation-specific. -/
  | unspecified
deriving DecidableEq, Repr

/-- The `PatternSetup` closure of the `infill` renderer in `NewGoSlice` (lines 86-100),
over the options it captures.  `data.Millimeter(10).ToMicrometer()` is `10000`;
`mm10 / ExtrusionWidth` is the truncating division of two `Micrometer` integers. -/
def infillPatternSetup (o : Options) (min max : MicroPoint) : SetupResult :=
  if o.Print.InfillPercent ≠ 0 then
    if o.Printer.ExtrusionWidth = 0 then SetupResult.panicked
    else
      match float64Div
          (float64Mul (float64OfInt (Int.tdiv 10000 o.Printer.ExtrusionWidth))
            (float64OfInt o.Print.InfillPercent)) 100 with
      | none => SetupResult.unspecified
      | some linesPer10mmForInfillPercent =>
        match float64Div (float64OfInt 10000) linesPer10mmForInfillPercent with
        | none => SetupResult.unspecified
        | some quotient =>
          match micrometerOfFloat64 quotient with
          | none => SetupResult.unspecified
          | some lineWidth => SetupResult.linearPattern min max lineWidth
  else SetupResult.nilPattern

/-- The two float64 roundings of the sparse spacing land on `10^6 / m` for the product
`m` of the number of lines and the percentage: the divisor is positive and the quotient
lies in `[10^6 / m, 10^6 / m + 1)`. -/
def chainOK (m : Nat) : Prop :=
  0 < roundFloat64 ((m : ℚ) / 100)
  ∧ ((1000000 / m : Nat) : ℚ) ≤ roundFloat64 (10000 / roundFloat64 ((m : ℚ) / 100))
  ∧ roundFloat64 (10000 / roundFloat64 ((m : ℚ) / 100)) < ((1000000 / m : Nat) : ℚ) + 1

/-! ## Concrete inputs -/

/-- A square island. -/
def sq : LayerPart := { outline := [⟨0, 0⟩, ⟨10, 0⟩, ⟨10, 10⟩, ⟨0, 10⟩], holes := [] }

/-- A clipper whose `Difference` always succeeds and returns the subject. -/
def okClipper : Clipper :=
  { LinearPattern := fun mn mx s => ⟨mn, mx, s⟩,
    Difference := fun subject _ => ([subject], true),
    Fill := fun fillArea _ _ _ _ _ => [fillArea.outline] }

/-- A clipper whose `Difference` always reports `ok = false`. -/
def failClipper : Clipper :=
  { LinearPattern := fun mn mx s => ⟨mn, mx, s⟩,
    Difference := fun _ _ => ([], false),
    Fill := fun fillArea _ _ _ _ _ => [fillArea.outline] }

/-- A layer with one part and the attribute map `attrs`. -/
def mkLayer (attrs : String → Option AttrValue) : PartitionedLayer :=
  { LayerParts := [sq], Bounds := (⟨0, 0⟩, ⟨10, 10⟩), Attributes := attrs }

/-- The attribute map with the single key `perimeters`. -/
def perimetersOnly (v : List (List (List LayerPart))) : String → Option AttrValue :=
  fun k => if k = "perimeters" then some (AttrValue.layerParts3 v) else none

/-- A layer whose `perimeters` has one part with an empty inset list (`InsetCount = 0`). -/
def noInsetLayer : PartitionedLayer := mkLayer (perimetersOnly [[]])

/-- A layer that already carries a `bottom` attribute next to its `perimeters`. -/
def priorBottomLayer : PartitionedLayer :=
  mkLayer fun k =>
    if k = "perimeters" then some (AttrValue.layerParts3 [[[sq]]])
    else if k = "bottom" then some (AttrValue.pathsList [[]])
    else none

/-- An optimized model whose debug dump leaves the outside state alone. -/
def plainModel : OptimizedModel Nat := { SaveDebugSTL := fun _ w => w }

/-- A modifier that counts its `Init` calls in the outside state and returns the stack
it is given. -/
def countingModifier : LayerModifier Nat :=
  { Init := fun _ w => w + 1, Modify := fun _ layers w => (ModifyOutcome.returned layers, w) }

/-- A modifier whose `Modify` fails at layer 1. -/
def failingModifier : LayerModifier Nat :=
  { Init := fun _ w => w,
    Modify := fun layerNr layers w =>
      if layerNr = 1 then (ModifyOutcome.failed ⟨"modify failed"⟩, w)
      else (ModifyOutcome.returned layers, w) }

/-- A two-layer stack. -/
def twoLayers : List PartitionedLayer := [mkLayer fun _ => none, mkLayer fun _ => none]

/-- A pipeline in which every stage succeeds, with the modifiers `mods` and a writer that
returns `writeErr`. -/
def demoSlice (mods : List (LayerModifier Nat)) (writeErr : Option GoError) : GoSlice Nat :=
  { reader := { Read := fun _ w => (Except.ok [[]], w) },
    optimizer := { Optimize := fun _ w => (Except.ok plainModel, w) },
    slicer := { Slice := fun _ w => (Except.ok twoLayers, w) },
    modifiers := mods,
    generator := { Init := fun _ w => w, Generate := fun _ w => ("G28", w) },
    writer := { Write := fun _ _ w => (writeErr, w) } }

/-! ## Vocabulary of the statements -/

/-- The result the clipper gave to a `Fill` call; `none` for the other calls. -/
def ClipCall.fillResult (c : Clipper) : ClipCall → Option Paths
  | .fill fillArea clipArea lineWidth pattern overlapPercent additionalInternalOverlap =>
    some (c.Fill fillArea clipArea lineWidth pattern overlapPercent additionalInternalOverlap)
  | _ => none

/-- The `Fill` results collected along a sequence of clipper calls, in call order. -/
def collected (c : Clipper) (calls : List ClipCall) : List Paths :=
  calls.filterMap (ClipCall.fillResult c)

/-- The innermost (last) inset of a part of `perimeters`: its list of islands.  Empty for
a part without insets. -/
def innermostInset (part : List (List LayerPart)) : List LayerPart :=
  part.getLastD []

/-- Specification of the `bottom` payload of layer 0: one `Fill` of the whole island, with
no clip area, per island of each part's innermost inset. -/
def specBottomFirstLayer (c : Clipper) (o : Options) (pattern : Pattern)
    (perimeters : List (List (List LayerPart))) : List Paths :=
  perimeters.flatMap fun part => (innermostInset part).map fun island =>
    c.Fill island none o.Printer.ExtrusionWidth pattern o.Print.InfillOverlapPercent 200

/-- Specification of the `bottom` payload of a layer above the first: for each island `I`
of each part's innermost inset, `Fill(R, I, ExtrusionWidth, pattern, InfillOverlapPercent,
200)` for each region `R` of `Difference(I, parts of the layer below)`. -/
def specBottomAbove (c : Clipper) (o : Options) (pattern : Pattern) (below : List LayerPart)
    (perimeters : List (List (List LayerPart))) : List Paths :=
  perimeters.flatMap fun part => (innermostInset part).flatMap fun island =>
    (c.Difference island below).1.map fun region =>
      c.Fill region (some island) o.Printer.ExtrusionWidth pattern
        o.Print.InfillOverlapPercent 200

/-- The clipper calls of a layer above the first, as the specification orders them: per
island one `Difference` against the parts below, then one `Fill` per region. -/
def specCallsAbove (c : Clipper) (o : Options) (pattern : Pattern) (below : List LayerPart)
    (perimeters : List (List (List LayerPart))) : List ClipCall :=
  perimeters.flatMap fun part => (innermostInset part).flatMap fun island =>
    ClipCall.difference island below ::
      (c.Difference island below).1.map fun region =>
        ClipCall.fill region (some island) o.Printer.ExtrusionWidth pattern
          o.Print.InfillOverlapPercent 200

/-- The clipper calls of layer 0 as the specification orders them: one `Fill` per island. -/
def specCallsFirstLayer (o : Options) (pattern : Pattern)
    (perimeters : List (List (List LayerPart))) : List ClipCall :=
  perimeters.flatMap fun part => (innermostInset part).map fun island =>
    ClipCall.fill island none o.Printer.ExtrusionWidth pattern o.Print.InfillOverlapPercent 200

/-- How the end of a loop relates to the calls `extra` it added, starting from the value
`before` of `bottomInfill`: a failure comes from a failed `Difference` above layer 0; any
other end made no failing call, and a normal end collected exactly the `Fill` results. -/
def LoopExit.accounts (c : Clipper) (layerNr : Int) (before : List Paths)
    (extra : List ClipCall) : LoopExit → Prop
  | .done bottomInfill =>
    bottomInfill = before ++ collected c extra ∧ ∀ call ∈ extra, call.failsOn c = false
  | .failed _ => layerNr ≠ 0 ∧ ∃ call ∈ extra, call.failsOn c = true
  | .panicked => ∀ call ∈ extra, call.failsOn c = false

/-- The kind of a collaborator call, without what it returned. -/
inductive EventKind where
  | read
  | optimize
  | saveDebugSTL
  | slice
  | modifierInit (k : Nat)
  | modify (k : Nat) (layerNr : Nat)
  | generatorInit
  | generate
  | write
deriving DecidableEq, Repr

/-- The kind of an event. -/
def Event.kind : Event → EventKind
  | .read _ _ => EventKind.read
  | .optimize _ => EventKind.optimize
  | .saveDebugSTL => EventKind.saveDebugSTL
  | .slice _ => EventKind.slice
  | .modifierInit k => EventKind.modifierInit k
  | .modify k layerNr _ => EventKind.modify k layerNr.toNat
  | .generatorInit => EventKind.generatorInit
  | .generate _ => EventKind.generate
  | .write _ _ _ => EventKind.write

/-- The error a call of the reader, the optimizer, the slicer or a `Modify` returned, if it
returned one. -/
def Event.abortError : Event → Option GoError
  | .read _ err => err
  | .optimize err => err
  | .slice err => err
  | .modify _ _ (ModifyOutcome.failed err) => some err
  | _ => none

/-- Specification of one `Modify` step of the fold: `none` once a call did not succeed. -/
def specStep {W : Type} (m : LayerModifier W) (acc : Option (List PartitionedLayer × W))
    (layerNr : Nat) : Option (List PartitionedLayer × W) :=
  acc.bind fun st =>
    match m.Modify layerNr st.1 st.2 with
    | (ModifyOutcome.returned layers1, w1) => some (layers1, w1)
    | _ => none

/-- Specification of one modifier's pass: `Init` once, then the fold of `Modify` over the
layer indices `0, 1, ..., n-1` in ascending order, `n` the number of layers at the start of
the pass. -/
def specPass {W : Type} (optimizedModel : OptimizedModel W)
    (acc : Option (List PartitionedLayer × W)) (m : LayerModifier W) :
    Option (List PartitionedLayer × W) :=
  acc.bind fun st =>
    (List.range st.1.length).foldl (specStep m) (some (st.1, m.Init optimizedModel st.2))

/-- Specification of the modifier chain: the fold of the passes over the modifiers in list
order, starting from the slicer's output. -/
def specChain {W : Type} (optimizedModel : OptimizedModel W) (modifiers : List (LayerModifier W))
    (layers : List PartitionedLayer) (w : W) : Option (List PartitionedLayer × W) :=
  modifiers.foldl (specPass optimizedModel) (some (layers, w))

/-- Specification of the order of the calls on the modifiers, from position `k` on: for each
modifier one `Init`, then one `Modify` per layer index in ascending order, and all of it
before the next modifier's `Init`. -/
def specOrder {W : Type} (optimizedModel : OptimizedModel W) :
    List (LayerModifier W) → Nat → Option (List PartitionedLayer × W) → List EventKind
  | [], _, _ => []
  | _ :: _, _, none => []
  | m :: rest, k, some st =>
    (EventKind.modifierInit k :: (List.range st.1.length).map (EventKind.modify k)) ++
      specOrder optimizedModel rest (k + 1) (specPass optimizedModel (some st) m)

/-- How the end of a stage shows in the trace: after a failure the last call is the one
that returned the error and no earlier call returned one; otherwise no call returned one. -/
def StageExit.shaped : StageExit → List Event → Prop
  | .failed err, trace => ∃ pre ev, trace = pre ++ [ev]
      ∧ (∀ x ∈ pre, x.abortError = none) ∧ ev.abortError = some err
  | _, trace => ∀ x ∈ trace, x.abortError = none

/-! ## Theorems -/

/-! ### Helper lemmas on the loops of `Modify` -/

theorem foldl_append_singleton {α : Type} (xs init : List α) :
    xs.foldl (fun acc x => acc ++ [x]) init = init ++ xs := by
  induction xs generalizing init with
  | nil => simp
  | cons x xs ih => simp [ih]

theorem foldl_fillStep (c : Clipper) (o : Options) (pattern : Pattern) (insetPart : LayerPart)
    (toInfill : List LayerPart) (acc : List Paths × List ClipCall) :
    toInfill.foldl (fillStep c o pattern insetPart) acc
      = (acc.1 ++ toInfill.map (fun region => c.Fill region (some insetPart)
            o.Printer.ExtrusionWidth pattern o.Print.InfillOverlapPercent 200),
         acc.2 ++ toInfill.map (fun region => ClipCall.fill region (some insetPart)
            o.Printer.ExtrusionWidth pattern o.Print.InfillOverlapPercent 200)) := by
  induction toInfill generalizing acc with
  | nil => simp
  | cons x xs ih => simp [ih, fillStep, internalInfillOverlap]

theorem index?_last {α : Type} (xs : List α) :
    index? xs ((xs.length : Int) - 1) = xs.getLast? := by
  cases xs with
  | nil => simp [index?]
  | cons a l =>
    have h : ¬ (((a :: l).length : Int) - 1 < 0) := by simp
    simp only [index?, h, if_false, List.getLast?_eq_getElem?]
    congr 1
    simp

theorem innermostInset_of_getLast? (part : List (List LayerPart)) (innermost : List LayerPart)
    (h : part.getLast? = some innermost) : innermostInset part = innermost := by
  cases part with
  | nil => simp at h
  | cons a l =>
    rw [List.getLast?_eq_getLast _ (by simp)] at h
    simp only [Option.some.injEq] at h
    simp [innermostInset, List.getLastD_eq_getLast?, List.getLast?_eq_getLast _ (List.cons_ne_nil a l), h]

theorem getLast?_of_ne_nil (part : List (List LayerPart)) (h : part ≠ []) :
    part.getLast? = some (innermostInset part) := by
  cases part with
  | nil => exact absurd rfl h
  | cons a l =>
    simp [innermostInset, List.getLastD_eq_getLast?, List.getLast?_eq_getLast _ (List.cons_ne_nil a l)]

theorem islandLoop_zero (c : Clipper) (o : Options) (layers : List PartitionedLayer)
    (pattern : Pattern) (islands : List LayerPart) (b : List Paths) (calls : List ClipCall) :
    islandLoop c o 0 layers pattern islands b calls
      = ⟨LoopExit.done (b ++ islands.map fun island => c.Fill island none
            o.Printer.ExtrusionWidth pattern o.Print.InfillOverlapPercent 200),
         calls ++ islands.map fun island => ClipCall.fill island none
            o.Printer.ExtrusionWidth pattern o.Print.InfillOverlapPercent 200⟩ := by
  induction islands generalizing b calls with
  | nil => simp [islandLoop]
  | cons x xs ih => simp [islandLoop, ih, internalInfillOverlap]

theorem partLoop_zero (c : Clipper) (o : Options) (layers : List PartitionedLayer)
    (pattern : Pattern) (perimeters : List (List (List LayerPart)))
    (hinsets : ∀ part ∈ perimeters, part ≠ []) (b : List Paths) (calls : List ClipCall) :
    partLoop c o 0 layers pattern perimeters b calls
      = ⟨LoopExit.done (b ++ specBottomFirstLayer c o pattern perimeters),
         calls ++ specCallsFirstLayer o pattern perimeters⟩ := by
  induction perimeters generalizing b calls with
  | nil => simp [partLoop, specBottomFirstLayer, specCallsFirstLayer]
  | cons part rest ih =>
    have hp : part ≠ [] := hinsets part (by simp)
    have hr : ∀ q ∈ rest, q ≠ [] := fun q hq => hinsets q (by simp [hq])
    rw [partLoop, index?_last, getLast?_of_ne_nil part hp]
    simp only [islandLoop_zero]
    rw [ih hr]
    simp [specBottomFirstLayer, specCallsFirstLayer]

theorem islandLoop_above (c : Clipper) (o : Options) (layerNr : Int)
    (layers : List PartitionedLayer) (pattern : Pattern) (below : PartitionedLayer)
    (hnr : layerNr ≠ 0) (hbelow : index? layers (layerNr - 1) = some below)
    (islands : List LayerPart)
    (hok : ∀ island ∈ islands, (c.Difference island below.LayerParts).2 = true)
    (b : List Paths) (calls : List ClipCall) :
    islandLoop c o layerNr layers pattern islands b calls
      = ⟨LoopExit.done (b ++ islands.flatMap fun island =>
            (c.Difference island below.LayerParts).1.map fun region =>
              c.Fill region (some island) o.Printer.ExtrusionWidth pattern
                o.Print.InfillOverlapPercent 200),
         calls ++ islands.flatMap fun island =>
            ClipCall.difference island below.LayerParts ::
              (c.Difference island below.LayerParts).1.map fun region =>
                ClipCall.fill region (some island) o.Printer.ExtrusionWidth pattern
                  o.Print.InfillOverlapPercent 200⟩ := by
  induction islands generalizing b calls with
  | nil => simp [islandLoop]
  | cons x xs ih =>
    have hx : (c.Difference x below.LayerParts).2 = true := hok x (by simp)
    have hr : ∀ island ∈ xs, (c.Difference island below.LayerParts).2 = true :=
      fun q hq => hok q (by simp [hq])
    rw [islandLoop]
    simp only [hnr, if_false, hbelow, foldl_append_singleton, List.nil_append, hx,
      foldl_fillStep]
    rw [ih hr]
    simp

theorem partLoop_above (c : Clipper) (o : Options) (layerNr : Int)
    (layers : List PartitionedLayer) (pattern : Pattern) (below : PartitionedLayer)
    (hnr : layerNr ≠ 0) (hbelow : index? layers (layerNr - 1) = some below)
    (perimeters : List (List (List LayerPart)))
    (hinsets : ∀ part ∈ perimeters, part ≠ [])
    (hok : ∀ part ∈ perimeters, ∀ island ∈ innermostInset part,
      (c.Difference island below.LayerParts).2 = true)
    (b : List Paths) (calls : List ClipCall) :
    partLoop c o layerNr layers pattern perimeters b calls
      = ⟨LoopExit.done (b ++ specBottomAbove c o pattern below.LayerParts perimeters),
         calls ++ specCallsAbove c o pattern below.LayerParts perimeters⟩ := by
  induction perimeters generalizing b calls with
  | nil => simp [partLoop, specBottomAbove, specCallsAbove]
  | cons part rest ih =>
    have hp : part ≠ [] := hinsets part (by simp)
    have hr : ∀ q ∈ rest, q ≠ [] := fun q hq => hinsets q (by simp [hq])
    have hokp := hok part (by simp)
    have hokr : ∀ q ∈ rest, ∀ island ∈ innermostInset q,
        (c.Difference island below.LayerParts).2 = true := fun q hq => hok q (by simp [hq])
    rw [partLoop, index?_last, getLast?_of_ne_nil part hp]
    simp only [islandLoop_above c o layerNr layers pattern below hnr hbelow _ hokp]
    rw [ih hr hokr]
    simp [specBottomAbove, specCallsAbove]

theorem index?_nonneg {α : Type} (xs : List α) (i : Int) (x : α) (h : index? xs i = some x) :
    0 ≤ i ∧ i.toNat < xs.length := by
  unfold index? at h
  split at h
  · simp at h
  · rename_i hi
    refine ⟨by omega, ?_⟩
    by_contra hlen
    rw [List.getElem?_eq_none (by omega)] at h
    simp at h

theorem index?_pred {α : Type} (xs : List α) (i : Int) (x : α) (h : index? xs i = some x)
    (h1 : 1 ≤ i) : ∃ y, index? xs (i - 1) = some y := by
  obtain ⟨_, hlt⟩ := index?_nonneg xs i x h
  have hneg : ¬ (i - 1 < 0) := by omega
  have hlt1 : (i - 1).toNat < xs.length := by omega
  exact ⟨xs[(i - 1).toNat], by simp [index?, hneg, List.getElem?_eq_getElem hlt1]⟩

theorem accounts_append (c : Clipper) (layerNr : Int) (b : List Paths)
    (extra1 extra2 : List ClipCall) (exit : LoopExit)
    (h1 : ∀ call ∈ extra1, call.failsOn c = false)
    (h2 : exit.accounts c layerNr (b ++ collected c extra1) extra2) :
    exit.accounts c layerNr b (extra1 ++ extra2) := by
  cases exit with
  | done b1 =>
    obtain ⟨hb, hf⟩ := h2
    refine ⟨by simp [hb, collected, List.filterMap_append], ?_⟩
    intro call hcall
    rcases List.mem_append.mp hcall with h | h
    · exact h1 call h
    · exact hf call h
  | failed err =>
    obtain ⟨hnr, call, hcall, hfail⟩ := h2
    exact ⟨hnr, call, List.mem_append.mpr (Or.inr hcall), hfail⟩
  | panicked =>
    intro call hcall
    rcases List.mem_append.mp hcall with h | h
    · exact h1 call h
    · exact h2 call h

theorem collected_fill_map (c : Clipper) (clipArea : Option LayerPart) (w : Int)
    (pattern : Pattern) (ov ad : Int) (regions : List LayerPart) :
    collected c (regions.map fun region => ClipCall.fill region clipArea w pattern ov ad)
      = regions.map fun region => c.Fill region clipArea w pattern ov ad := by
  induction regions with
  | nil => rfl
  | cons x xs ih =>
    simp only [collected] at ih
    simp [collected, ClipCall.fillResult, ih]

theorem collected_flatMap {α : Type} (c : Clipper) (f : α → List ClipCall) (xs : List α) :
    collected c (xs.flatMap f) = xs.flatMap fun x => collected c (f x) := by
  induction xs with
  | nil => rfl
  | cons x xs ih =>
    simp only [collected] at ih
    simp [collected, List.filterMap_append, ih]

theorem collected_difference_cons (c : Clipper) (subject : LayerPart) (clips : List LayerPart)
    (rest : List ClipCall) :
    collected c (ClipCall.difference subject clips :: rest) = collected c rest := by
  simp [collected, ClipCall.fillResult]

theorem collected_linearPattern_cons (c : Clipper) (mn mx : MicroPoint) (spacing : Int)
    (rest : List ClipCall) :
    collected c (ClipCall.linearPattern mn mx spacing :: rest) = collected c rest := by
  simp [collected, ClipCall.fillResult]

theorem islandLoop_accounts (c : Clipper) (o : Options) (layerNr : Int)
    (layers : List PartitionedLayer) (pattern : Pattern) (islands : List LayerPart)
    (b : List Paths) (calls : List ClipCall) :
    ∃ extra, (islandLoop c o layerNr layers pattern islands b calls).calls = calls ++ extra
      ∧ (islandLoop c o layerNr layers pattern islands b calls).exit.accounts c layerNr b extra := by
  induction islands generalizing b calls with
  | nil => exact ⟨[], by simp [islandLoop], by simp [islandLoop, LoopExit.accounts, collected]⟩
  | cons x xs ih =>
    rw [islandLoop]
    by_cases hnr : layerNr = 0
    · simp only [hnr, if_true]
      obtain ⟨extra, hc, ha⟩ := ih
        (b ++ [c.Fill x none o.Printer.ExtrusionWidth pattern o.Print.InfillOverlapPercent
          (internalInfillOverlap * 100)])
        (calls ++ [ClipCall.fill x none o.Printer.ExtrusionWidth pattern
          o.Print.InfillOverlapPercent (internalInfillOverlap * 100)])
      rw [hnr] at hc ha
      refine ⟨[ClipCall.fill x none o.Printer.ExtrusionWidth pattern
          o.Print.InfillOverlapPercent (internalInfillOverlap * 100)] ++ extra, ?_, ?_⟩
      · rw [hc]; simp
      · refine accounts_append c 0 b _ extra _ ?_ ?_
        · intro call hcall
          simp only [List.mem_singleton] at hcall
          subst hcall
          rfl
        · simpa [collected, ClipCall.fillResult] using ha
    · simp only [hnr, if_false]
      cases hb : index? layers (layerNr - 1) with
      | none => exact ⟨[], by simp, by simp [LoopExit.accounts]⟩
      | some below =>
        simp only [foldl_append_singleton, List.nil_append, foldl_fillStep]
        by_cases hok : (c.Difference x below.LayerParts).2 = false
        · simp only [hok, if_true]
          refine ⟨[ClipCall.difference x below.LayerParts], rfl, hnr, _, List.mem_singleton.mpr rfl, ?_⟩
          simp [ClipCall.failsOn, hok]
        · rw [if_neg hok]
          obtain ⟨extra, hc, ha⟩ := ih
            (b ++ (c.Difference x below.LayerParts).1.map fun region =>
              c.Fill region (some x) o.Printer.ExtrusionWidth pattern
                o.Print.InfillOverlapPercent 200)
            (calls ++ [ClipCall.difference x below.LayerParts] ++
              (c.Difference x below.LayerParts).1.map fun region =>
                ClipCall.fill region (some x) o.Printer.ExtrusionWidth pattern
                  o.Print.InfillOverlapPercent 200)
          refine ⟨(ClipCall.difference x below.LayerParts ::
              (c.Difference x below.LayerParts).1.map fun region =>
                ClipCall.fill region (some x) o.Printer.ExtrusionWidth pattern
                  o.Print.InfillOverlapPercent 200) ++ extra, ?_, ?_⟩
          · rw [hc]; simp
          · refine accounts_append c layerNr b _ extra _ ?_ ?_
            · intro call hcall
              rcases List.mem_cons.mp hcall with h | h
              · subst h
                simpa [ClipCall.failsOn] using hok
              · obtain ⟨region, _, rfl⟩ := List.mem_map.mp h
                rfl
            · have hcol : collected c (ClipCall.difference x below.LayerParts ::
                  (c.Difference x below.LayerParts).1.map fun region =>
                    ClipCall.fill region (some x) o.Printer.ExtrusionWidth pattern
                      o.Print.InfillOverlapPercent 200)
                  = (c.Difference x below.LayerParts).1.map fun region =>
                    c.Fill region (some x) o.Printer.ExtrusionWidth pattern
                      o.Print.InfillOverlapPercent 200 := by
                rw [← collected_fill_map]
                simp [collected, ClipCall.fillResult]
              rw [hcol]
              exact ha

theorem partLoop_accounts (c : Clipper) (o : Options) (layerNr : Int)
    (layers : List PartitionedLayer) (pattern : Pattern)
    (perimeters : List (List (List LayerPart))) (b : List Paths) (calls : List ClipCall) :
    ∃ extra, (partLoop c o layerNr layers pattern perimeters b calls).calls = calls ++ extra
      ∧ (partLoop c o layerNr layers pattern perimeters b calls).exit.accounts c layerNr b extra := by
  induction perimeters generalizing b calls with
  | nil => exact ⟨[], by simp [partLoop], by simp [partLoop, LoopExit.accounts, collected]⟩
  | cons part rest ih =>
    rw [partLoop]
    cases hidx : index? part ((part.length : Int) - 1) with
    | none => exact ⟨[], by simp, by simp [LoopExit.accounts]⟩
    | some innermost =>
      dsimp only
      obtain ⟨extra1, hc1, ha1⟩ := islandLoop_accounts c o layerNr layers pattern innermost b calls
      rcases hrun : islandLoop c o layerNr layers pattern innermost b calls with ⟨exit, calls1⟩
      rw [hrun] at hc1 ha1
      simp only at hc1 ha1
      cases exit with
      | done b1 =>
        simp only
        obtain ⟨extra2, hc2, ha2⟩ := ih b1 calls1
        obtain ⟨hb1, hf1⟩ := ha1
        refine ⟨extra1 ++ extra2, by rw [hc2, hc1]; simp, ?_⟩
        exact accounts_append c layerNr b extra1 extra2 _ hf1 (hb1 ▸ ha2)
      | failed err => exact ⟨extra1, hc1, ha1⟩
      | panicked => exact ⟨extra1, hc1, ha1⟩

theorem islandLoop_no_panic (c : Clipper) (o : Options) (layerNr : Int)
    (layers : List PartitionedLayer) (pattern : Pattern)
    (hbelow : layerNr = 0 ∨ ∃ below, index? layers (layerNr - 1) = some below)
    (islands : List LayerPart) (b : List Paths) (calls : List ClipCall) :
    (islandLoop c o layerNr layers pattern islands b calls).exit ≠ LoopExit.panicked := by
  induction islands generalizing b calls with
  | nil => simp [islandLoop]
  | cons x xs ih =>
    rw [islandLoop]
    by_cases hnr : layerNr = 0
    · simp only [hnr, if_true]
      rw [hnr] at ih
      exact ih _ _
    · simp only [hnr, if_false]
      rcases hbelow with h0 | ⟨below, hb⟩
      · exact absurd h0 hnr
      · simp only [hb]
        split
        · simp
        · exact ih _ _

theorem partLoop_no_panic (c : Clipper) (o : Options) (layerNr : Int)
    (layers : List PartitionedLayer) (pattern : Pattern)
    (hbelow : layerNr = 0 ∨ ∃ below, index? layers (layerNr - 1) = some below)
    (perimeters : List (List (List LayerPart))) (hinsets : ∀ part ∈ perimeters, part ≠ [])
    (b : List Paths) (calls : List ClipCall) :
    (partLoop c o layerNr layers pattern perimeters b calls).exit ≠ LoopExit.panicked := by
  induction perimeters generalizing b calls with
  | nil => simp [partLoop]
  | cons part rest ih =>
    have hp : part ≠ [] := hinsets part (by simp)
    have hr : ∀ q ∈ rest, q ≠ [] := fun q hq => hinsets q (by simp [hq])
    rw [partLoop, index?_last, getLast?_of_ne_nil part hp]
    simp only
    have hi := islandLoop_no_panic c o layerNr layers pattern hbelow (innermostInset part) b calls
    rcases hrun : islandLoop c o layerNr layers pattern (innermostInset part) b calls
      with ⟨exit, calls1⟩
    rw [hrun] at hi
    cases exit with
    | done b1 => exact ih hr b1 calls1
    | failed err => simp
    | panicked => exact absurd rfl hi

theorem below_in_range (layers : List PartitionedLayer) (layerNr : Int)
    (layer : PartitionedLayer) (hlayer : index? layers layerNr = some layer) :
    layerNr = 0 ∨ ∃ below, index? layers (layerNr - 1) = some below := by
  by_cases h0 : layerNr = 0
  · exact Or.inl h0
  · have := (index?_nonneg layers layerNr layer hlayer).1
    exact Or.inr (index?_pred layers layerNr layer hlayer (by omega))

/-- The run of `Modify` on a layer with a `perimeters` attribute, as the end of its loops. -/
theorem Modify_with_perimeters (c : Clipper) (o : Options) (layerNr : Int)
    (layers : List PartitionedLayer) (layer : PartitionedLayer)
    (perimeters : List (List (List LayerPart)))
    (hlayer : index? layers layerNr = some layer)
    (hattr : layer.Attributes "perimeters" = some (AttrValue.layerParts3 perimeters)) :
    ∃ exit extra,
      Modify c o layerNr layers = finish layerNr layers layer
        ⟨exit, ClipCall.linearPattern layer.Bounds.1 layer.Bounds.2 o.Printer.ExtrusionWidth :: extra⟩
      ∧ exit.accounts c layerNr [] extra
      ∧ ((∀ part ∈ perimeters, part ≠ []) → exit ≠ LoopExit.panicked) := by
  obtain ⟨extra, hc, ha⟩ := partLoop_accounts c o layerNr layers
    (c.LinearPattern layer.Bounds.1 layer.Bounds.2 o.Printer.ExtrusionWidth) perimeters []
    [ClipCall.linearPattern layer.Bounds.1 layer.Bounds.2 o.Printer.ExtrusionWidth]
  have hp := fun hinsets => partLoop_no_panic c o layerNr layers
    (c.LinearPattern layer.Bounds.1 layer.Bounds.2 o.Printer.ExtrusionWidth)
    (below_in_range layers layerNr layer hlayer) perimeters hinsets []
    [ClipCall.linearPattern layer.Bounds.1 layer.Bounds.2 o.Printer.ExtrusionWidth]
  rcases hrun : partLoop c o layerNr layers
    (c.LinearPattern layer.Bounds.1 layer.Bounds.2 o.Printer.ExtrusionWidth) perimeters []
    [ClipCall.linearPattern layer.Bounds.1 layer.Bounds.2 o.Printer.ExtrusionWidth]
    with ⟨exit, calls⟩
  rw [hrun] at hc ha hp
  simp only at hc ha hp
  refine ⟨exit, extra, ?_, ha, hp⟩
  simp only [Modify, hlayer, hattr, hrun, hc, List.singleton_append]

/-! ### Claims on `infillModifier.Modify` -/

/-- C10: when the layer at `layerNr` has no `perimeters` attribute, or one whose payload is
not a `[][][]data.LayerPart`, `Modify` returns the input layer stack itself with a nil
error and makes no clipper call at all (so no `bottom` key is added). -/
theorem Modify_without_perimeters (c : Clipper) (o : Options) (layerNr : Int)
    (layers : List PartitionedLayer) (layer : PartitionedLayer)
    (hlayer : index? layers layerNr = some layer)
    (hattr : ∀ perimeters, layer.Attributes "perimeters" ≠ some (AttrValue.layerParts3 perimeters)) :
    (Modify c o layerNr layers).outcome = ModifyOutcome.returned layers
    ∧ (Modify c o layerNr layers).calls = [] := by
  simp only [Modify, hlayer]
  exact ⟨trivial, trivial⟩

/-- C4: at `layerNr = 0`, with a `perimeters` attribute in which every part has at least
one inset, `Modify` returns normally; its clipper calls are the `LinearPattern` call
followed by one `Fill` (whole island, nil clip area) per island of each part's last inset,
in part order then island order, so none is a `Difference`; the new layer 0 is the old one
with `bottom` set to these `Fill` results when there is at least one, and the number of
results is the total number of innermost islands. -/
theorem Modify_first_layer (c : Clipper) (o : Options) (layer : PartitionedLayer)
    (rest : List PartitionedLayer) (perimeters : List (List (List LayerPart)))
    (hattr : layer.Attributes "perimeters" = some (AttrValue.layerParts3 perimeters))
    (hinsets : ∀ part ∈ perimeters, part ≠ []) :
    (Modify c o 0 (layer :: rest)).outcome
        = ModifyOutcome.returned (withBottom layer (specBottomFirstLayer c o
            (c.LinearPattern layer.Bounds.1 layer.Bounds.2 o.Printer.ExtrusionWidth)
            perimeters) :: rest)
    ∧ (Modify c o 0 (layer :: rest)).calls
        = ClipCall.linearPattern layer.Bounds.1 layer.Bounds.2 o.Printer.ExtrusionWidth ::
            specCallsFirstLayer o
              (c.LinearPattern layer.Bounds.1 layer.Bounds.2 o.Printer.ExtrusionWidth) perimeters
    ∧ (∀ call ∈ (Modify c o 0 (layer :: rest)).calls, call.isDifference = false)
    ∧ (specBottomFirstLayer c o
          (c.LinearPattern layer.Bounds.1 layer.Bounds.2 o.Printer.ExtrusionWidth)
          perimeters).length = (perimeters.map fun part => (innermostInset part).length).sum
    ∧ (specBottomFirstLayer c o
          (c.LinearPattern layer.Bounds.1 layer.Bounds.2 o.Printer.ExtrusionWidth)
          perimeters ≠ [] →
        (withBottom layer (specBottomFirstLayer c o
          (c.LinearPattern layer.Bounds.1 layer.Bounds.2 o.Printer.ExtrusionWidth)
          perimeters)).Attributes "bottom"
          = some (AttrValue.pathsList (specBottomFirstLayer c o
              (c.LinearPattern layer.Bounds.1 layer.Bounds.2 o.Printer.ExtrusionWidth)
              perimeters))) := by
  have hrun : Modify c o 0 (layer :: rest)
      = ⟨ModifyOutcome.returned (withBottom layer (specBottomFirstLayer c o
            (c.LinearPattern layer.Bounds.1 layer.Bounds.2 o.Printer.ExtrusionWidth)
            perimeters) :: rest),
         ClipCall.linearPattern layer.Bounds.1 layer.Bounds.2 o.Printer.ExtrusionWidth ::
            specCallsFirstLayer o
              (c.LinearPattern layer.Bounds.1 layer.Bounds.2 o.Printer.ExtrusionWidth)
              perimeters⟩ := by
    simp [Modify, finish, index?, hattr, partLoop_zero c o _ _ perimeters hinsets]
  refine ⟨by rw [hrun], by rw [hrun], ?_, ?_, ?_⟩
  · rw [hrun]
    intro call hcall
    simp only [List.mem_cons, specCallsFirstLayer, List.mem_flatMap, List.mem_map] at hcall
    rcases hcall with rfl | ⟨_, _, _, _, rfl⟩ <;> rfl
  · simp [specBottomFirstLayer, List.length_flatMap, Function.comp_def]
  · intro hne
    have hlen : (specBottomFirstLayer c o
        (c.LinearPattern layer.Bounds.1 layer.Bounds.2 o.Printer.ExtrusionWidth)
        perimeters).length > 0 := List.length_pos.mpr hne
    simp [withBottom, hlen, PartitionedLayer.setAttr]

/-- C4 (witness): a one-layer stack whose `perimeters` holds one part with one inset of
one island. -/
theorem Modify_first_layer_witness :
    (Modify okClipper defaultOptions 0 (mkLayer (perimetersOnly [[[sq]]]) :: [])).outcome
      = ModifyOutcome.returned (withBottom (mkLayer (perimetersOnly [[[sq]]]))
          (specBottomFirstLayer okClipper defaultOptions
            (okClipper.LinearPattern ⟨0, 0⟩ ⟨10, 10⟩ 400) [[[sq]]]) :: [])
    ∧ specBottomFirstLayer okClipper defaultOptions
        (okClipper.LinearPattern ⟨0, 0⟩ ⟨10, 10⟩ 400) [[[sq]]] = [[sq.outline]] :=
  ⟨(Modify_first_layer okClipper defaultOptions (mkLayer (perimetersOnly [[[sq]]])) []
      [[[sq]]] rfl (by simp)).1, rfl⟩

/-- C10 (witness): a layer whose attribute map is empty. -/
theorem Modify_without_perimeters_witness :
    (Modify okClipper defaultOptions 0 [mkLayer fun _ => none]).outcome
      = ModifyOutcome.returned [mkLayer fun _ => none]
    ∧ (Modify okClipper defaultOptions 0 [mkLayer fun _ => none]).calls = [] :=
  Modify_without_perimeters okClipper defaultOptions 0 [mkLayer fun _ => none]
    (mkLayer fun _ => none) rfl (by intro p h; simp [mkLayer] at h)

/-- C3: at a layer `layerNr >= 1` with a `perimeters` attribute in which every part has at
least one inset, when every `Difference` of an innermost island against the parts of layer
`layerNr - 1` succeeds, `Modify` returns normally, the `bottomInfill` it computes is
`specBottomAbove` (per island `I`, in part order then island order, `Fill(R, I,
ExtrusionWidth, pattern, InfillOverlapPercent, 200)` for each `R` of `Difference(I, parts
below)`, with `pattern = LinearPattern(min, max, ExtrusionWidth)` over the bounds of layer
`layerNr`), it is stored under `bottom` when not empty, and the clipper calls made are
exactly those the specification lists. -/
theorem Modify_above_first_layer (c : Clipper) (o : Options) (layerNr : Int)
    (layers : List PartitionedLayer) (layer below : PartitionedLayer)
    (perimeters : List (List (List LayerPart)))
    (hnr : 1 ≤ layerNr)
    (hlayer : index? layers layerNr = some layer)
    (hbelow : index? layers (layerNr - 1) = some below)
    (hattr : layer.Attributes "perimeters" = some (AttrValue.layerParts3 perimeters))
    (hinsets : ∀ part ∈ perimeters, part ≠ [])
    (hok : ∀ part ∈ perimeters, ∀ island ∈ innermostInset part,
      (c.Difference island below.LayerParts).2 = true) :
    (Modify c o layerNr layers).outcome
        = ModifyOutcome.returned (layers.set layerNr.toNat (withBottom layer
            (specBottomAbove c o
              (c.LinearPattern layer.Bounds.1 layer.Bounds.2 o.Printer.ExtrusionWidth)
              below.LayerParts perimeters)))
    ∧ (Modify c o layerNr layers).calls
        = ClipCall.linearPattern layer.Bounds.1 layer.Bounds.2 o.Printer.ExtrusionWidth ::
            specCallsAbove c o
              (c.LinearPattern layer.Bounds.1 layer.Bounds.2 o.Printer.ExtrusionWidth)
              below.LayerParts perimeters
    ∧ collected c (Modify c o layerNr layers).calls
        = specBottomAbove c o
            (c.LinearPattern layer.Bounds.1 layer.Bounds.2 o.Printer.ExtrusionWidth)
            below.LayerParts perimeters
    ∧ (specBottomAbove c o
          (c.LinearPattern layer.Bounds.1 layer.Bounds.2 o.Printer.ExtrusionWidth)
          below.LayerParts perimeters ≠ [] →
        (withBottom layer (specBottomAbove c o
          (c.LinearPattern layer.Bounds.1 layer.Bounds.2 o.Printer.ExtrusionWidth)
          below.LayerParts perimeters)).Attributes "bottom"
          = some (AttrValue.pathsList (specBottomAbove c o
              (c.LinearPattern layer.Bounds.1 layer.Bounds.2 o.Printer.ExtrusionWidth)
              below.LayerParts perimeters))) := by
  have hne : layerNr ≠ 0 := by omega
  have hrun : Modify c o layerNr layers
      = ⟨ModifyOutcome.returned (layers.set layerNr.toNat (withBottom layer
            (specBottomAbove c o
              (c.LinearPattern layer.Bounds.1 layer.Bounds.2 o.Printer.ExtrusionWidth)
              below.LayerParts perimeters))),
         ClipCall.linearPattern layer.Bounds.1 layer.Bounds.2 o.Printer.ExtrusionWidth ::
            specCallsAbove c o
              (c.LinearPattern layer.Bounds.1 layer.Bounds.2 o.Printer.ExtrusionWidth)
              below.LayerParts perimeters⟩ := by
    simp [Modify, finish, hlayer, hattr,
      partLoop_above c o layerNr layers _ below hne hbelow perimeters hinsets hok]
  refine ⟨by rw [hrun], by rw [hrun], ?_, ?_⟩
  · rw [hrun]
    rw [collected_linearPattern_cons]
    simp [specCallsAbove, specBottomAbove, collected_flatMap, collected_difference_cons,
      collected_fill_map]
  · intro hne2
    have hlen : (specBottomAbove c o
        (c.LinearPattern layer.Bounds.1 layer.Bounds.2 o.Printer.ExtrusionWidth)
        below.LayerParts perimeters).length > 0 := List.length_pos.mpr hne2
    simp [withBottom, hlen, PartitionedLayer.setAttr]

/-- C3 (witness): a two-layer stack, both layers with one square part and one inset of
one island, and a clipper whose `Difference` succeeds. -/
theorem Modify_above_first_layer_witness :
    (Modify okClipper defaultOptions 1
        [mkLayer (perimetersOnly [[[sq]]]), mkLayer (perimetersOnly [[[sq]]])]).outcome
      = ModifyOutcome.returned
          ([mkLayer (perimetersOnly [[[sq]]]), mkLayer (perimetersOnly [[[sq]]])].set 1
            (withBottom (mkLayer (perimetersOnly [[[sq]]]))
              (specBottomAbove okClipper defaultOptions
                (okClipper.LinearPattern ⟨0, 0⟩ ⟨10, 10⟩ 400) [sq] [[[sq]]])))
    ∧ specBottomAbove okClipper defaultOptions
        (okClipper.LinearPattern ⟨0, 0⟩ ⟨10, 10⟩ 400) [sq] [[[sq]]] = [[sq.outline]] :=
  ⟨(Modify_above_first_layer okClipper defaultOptions 1
      [mkLayer (perimetersOnly [[[sq]]]), mkLayer (perimetersOnly [[[sq]]])]
      (mkLayer (perimetersOnly [[[sq]]])) (mkLayer (perimetersOnly [[[sq]]])) [[[sq]]]
      (by decide) rfl rfl rfl (by simp) (by intro _ _ _ _; rfl)).1, rfl⟩

/-- C7: `Modify` returns an error exactly when the layer at `layerNr` has a `perimeters`
attribute, `layerNr >= 1`, and one of the `Difference` calls it made reported `ok = false`.
In particular, on a layer with a `perimeters` attribute whose parts all have an inset, if no
`Difference` call made reports `ok = false` (empty results and empty `Fill` results
included), `Modify` returns the layer stack, with the new layer at `layerNr`, and a nil
error. -/
theorem Modify_fails_iff (c : Clipper) (o : Options) (layerNr : Int)
    (layers : List PartitionedLayer) :
    ((∃ err, (Modify c o layerNr layers).outcome = ModifyOutcome.failed err) ↔
      ((∃ layer perimeters, index? layers layerNr = some layer
          ∧ layer.Attributes "perimeters" = some (AttrValue.layerParts3 perimeters))
        ∧ 1 ≤ layerNr
        ∧ ∃ call ∈ (Modify c o layerNr layers).calls, call.failsOn c = true))
    ∧ (∀ layer perimeters, index? layers layerNr = some layer →
        layer.Attributes "perimeters" = some (AttrValue.layerParts3 perimeters) →
        (∀ part ∈ perimeters, part ≠ []) →
        (∀ call ∈ (Modify c o layerNr layers).calls, call.failsOn c = false) →
        (Modify c o layerNr layers).outcome
          = ModifyOutcome.returned (layers.set layerNr.toNat
              (withBottom layer (collected c (Modify c o layerNr layers).calls)))) := by
  refine ⟨⟨?_, ?_⟩, ?_⟩
  · rintro ⟨err, herr⟩
    cases hlayer : index? layers layerNr with
    | none => simp [Modify, hlayer] at herr
    | some layer =>
      cases hattr : layer.Attributes "perimeters" with
      | none => simp [Modify, hlayer, hattr] at herr
      | some v =>
        cases v with
        | pathsList w => simp [Modify, hlayer, hattr] at herr
        | other tag => simp [Modify, hlayer, hattr] at herr
        | layerParts3 perimeters =>
          obtain ⟨exit, extra, hrun, ha, _⟩ :=
            Modify_with_perimeters c o layerNr layers layer perimeters hlayer hattr
          rw [hrun] at herr ⊢
          have h0 := (index?_nonneg layers layerNr layer hlayer).1
          cases exit with
          | done b => simp [finish] at herr
          | panicked => simp [finish] at herr
          | failed e =>
            obtain ⟨hnr, call, hcall, hfail⟩ := ha
            exact ⟨⟨layer, perimeters, rfl, hattr⟩, by omega, call,
              by simp [finish, hcall], hfail⟩
  · rintro ⟨⟨layer, perimeters, hlayer, hattr⟩, _, call, hcall, hfail⟩
    obtain ⟨exit, extra, hrun, ha, _⟩ :=
      Modify_with_perimeters c o layerNr layers layer perimeters hlayer hattr
    rw [hrun] at hcall ⊢
    cases exit with
    | failed e => exact ⟨e, rfl⟩
    | done b =>
      simp only [finish, List.mem_cons] at hcall
      rcases hcall with h | h
      · subst h; simp [ClipCall.failsOn] at hfail
      · rw [ha.2 call h] at hfail; simp at hfail
    | panicked =>
      simp only [finish, List.mem_cons] at hcall
      rcases hcall with h | h
      · subst h; simp [ClipCall.failsOn] at hfail
      · rw [ha call h] at hfail; simp at hfail
  · intro layer perimeters hlayer hattr hinsets hclean
    obtain ⟨exit, extra, hrun, ha, hp⟩ :=
      Modify_with_perimeters c o layerNr layers layer perimeters hlayer hattr
    rw [hrun] at hclean ⊢
    cases exit with
    | panicked => exact absurd rfl (hp hinsets)
    | done b =>
      simp [finish, collected_linearPattern_cons, ha.1]
    | failed e =>
      obtain ⟨_, call, hcall, hfail⟩ := ha
      have := hclean call (by simp [finish, hcall])
      rw [this] at hfail; simp at hfail

/-- C7 (witness): at layer 1 of a two-layer stack, with a clipper whose `Difference`
reports `ok = false`, `Modify` returns an error. -/
theorem Modify_fails_iff_witness :
    ∃ err, (Modify failClipper defaultOptions 1
      [mkLayer (perimetersOnly [[[sq]]]), mkLayer (perimetersOnly [[[sq]]])]).outcome
        = ModifyOutcome.failed err :=
  (Modify_fails_iff failClipper defaultOptions 1
    [mkLayer (perimetersOnly [[[sq]]]), mkLayer (perimetersOnly [[[sq]]])]).1.mpr
    ⟨⟨mkLayer (perimetersOnly [[[sq]]]), [[[sq]]], rfl, rfl⟩, by decide,
      ClipCall.difference sq [sq], List.mem_cons_of_mem _ (List.mem_cons_self _ _), rfl⟩

/-- C9 (counterexample): on a layer that already carries a `bottom` attribute, a
successful `Modify` replaces its payload: the prior attribute is not carried unchanged. -/
theorem Modify_overwrites_prior_bottom :
    (Modify okClipper defaultOptions 0 [priorBottomLayer]).outcome
      = ModifyOutcome.returned [withBottom priorBottomLayer [[sq.outline]]]
    ∧ priorBottomLayer.Attributes "bottom" = some (AttrValue.pathsList [[]])
    ∧ (withBottom priorBottomLayer [[sq.outline]]).Attributes "bottom"
        = some (AttrValue.pathsList [[sq.outline]])
    ∧ (withBottom priorBottomLayer [[sq.outline]]).Attributes "bottom"
        ≠ priorBottomLayer.Attributes "bottom" := by
  refine ⟨rfl, rfl, rfl, ?_⟩
  decide

/-- C9 (amended): whenever `Modify` returns normally, the returned stack has as many layers
as the input, every layer at an index other than `layerNr` is the input layer, and the
layer at `layerNr` has the parts, the bounds and every attribute other than `bottom` of the
input layer; its `bottom` is the list of `Fill` results collected when there is at least
one, and the prior `bottom` (absent when it was absent) otherwise. -/
theorem Modify_frame (c : Clipper) (o : Options) (layerNr : Int)
    (layers result : List PartitionedLayer)
    (h : (Modify c o layerNr layers).outcome = ModifyOutcome.returned result) :
    result.length = layers.length
    ∧ (∀ i : Nat, (i : Int) ≠ layerNr → result[i]? = layers[i]?)
    ∧ ∃ layer newLayer, index? layers layerNr = some layer
        ∧ index? result layerNr = some newLayer
        ∧ newLayer.LayerParts = layer.LayerParts
        ∧ newLayer.Bounds = layer.Bounds
        ∧ (∀ key, key ≠ "bottom" → newLayer.Attributes key = layer.Attributes key)
        ∧ newLayer.Attributes "bottom"
            = (if collected c (Modify c o layerNr layers).calls = [] then layer.Attributes "bottom"
               else some (AttrValue.pathsList (collected c (Modify c o layerNr layers).calls)))
        ∧ (layer.Attributes "bottom" = none →
            (newLayer.Attributes "bottom" ≠ none
              ↔ collected c (Modify c o layerNr layers).calls ≠ [])) := by
  have hex : ∃ layer, index? layers layerNr = some layer := by
    cases hl : index? layers layerNr with
    | none => simp [Modify, hl] at h
    | some layer => exact ⟨layer, rfl⟩
  obtain ⟨layer, hlayer⟩ := hex
  · have hunchanged : (Modify c o layerNr layers).outcome = ModifyOutcome.returned layers →
        (Modify c o layerNr layers).calls = [] →
        result.length = layers.length
        ∧ (∀ i : Nat, (i : Int) ≠ layerNr → result[i]? = layers[i]?)
        ∧ ∃ layer newLayer, index? layers layerNr = some layer
            ∧ index? result layerNr = some newLayer
            ∧ newLayer.LayerParts = layer.LayerParts
            ∧ newLayer.Bounds = layer.Bounds
            ∧ (∀ key, key ≠ "bottom" → newLayer.Attributes key = layer.Attributes key)
            ∧ newLayer.Attributes "bottom"
                = (if collected c (Modify c o layerNr layers).calls = [] then
                    layer.Attributes "bottom"
                   else some (AttrValue.pathsList (collected c (Modify c o layerNr layers).calls)))
            ∧ (layer.Attributes "bottom" = none →
                (newLayer.Attributes "bottom" ≠ none
                  ↔ collected c (Modify c o layerNr layers).calls ≠ [])) := by
      intro hout hcalls
      rw [hout] at h
      injection h with h
      subst h
      refine ⟨rfl, fun _ _ => rfl, layer, layer, hlayer, hlayer, rfl, rfl, fun _ _ => rfl, ?_, ?_⟩
      · simp [hcalls, collected]
      · intro hnone
        simp [hcalls, collected, hnone]
    cases hattr : layer.Attributes "perimeters" with
    | none => exact hunchanged (by simp [Modify, hlayer, hattr]) (by simp [Modify, hlayer, hattr])
    | some v =>
      cases v with
      | pathsList w =>
        exact hunchanged (by simp [Modify, hlayer, hattr]) (by simp [Modify, hlayer, hattr])
      | other tag =>
        exact hunchanged (by simp [Modify, hlayer, hattr]) (by simp [Modify, hlayer, hattr])
      | layerParts3 perimeters =>
        obtain ⟨exit, extra, hrun, ha, _⟩ :=
          Modify_with_perimeters c o layerNr layers layer perimeters hlayer hattr
        rw [hrun] at h ⊢
        obtain ⟨h0, hlt⟩ := index?_nonneg layers layerNr layer hlayer
        cases exit with
        | failed e => simp [finish] at h
        | panicked => simp [finish] at h
        | done b =>
          simp only [finish, ModifyOutcome.returned.injEq] at h
          subst h
          have hb : b = collected c extra := by simpa using ha.1
          subst hb
          have hneg : ¬ layerNr < 0 := by omega
          refine ⟨by simp, ?_, layer, withBottom layer (collected c extra), hlayer, ?_, ?_, ?_, ?_, ?_, ?_⟩
          · intro i hi
            rw [List.getElem?_set_ne]
            intro hEq
            apply hi
            omega
          · simp [index?, hneg, List.getElem?_set_self, hlt]
          · simp only [withBottom, newTypedLayer, PartitionedLayer.setAttr]
            split <;> rfl
          · simp only [withBottom, newTypedLayer, PartitionedLayer.setAttr]
            split <;> rfl
          · intro key hkey
            simp only [withBottom, newTypedLayer, PartitionedLayer.setAttr]
            split
            · simp [hkey]
            · rfl
          · simp only [finish, collected_linearPattern_cons]
            by_cases hcol : collected c extra = []
            · simp [withBottom, newTypedLayer, hcol]
            · have hlen : (collected c extra).length > 0 := List.length_pos.mpr hcol
              simp [withBottom, newTypedLayer, PartitionedLayer.setAttr, hcol, hlen]
          · intro hnone
            simp only [finish, collected_linearPattern_cons]
            by_cases hcol : collected c extra = []
            · simp [withBottom, newTypedLayer, hcol, hnone]
            · have hlen : (collected c extra).length > 0 := List.length_pos.mpr hcol
              simp [withBottom, newTypedLayer, PartitionedLayer.setAttr, hcol, hlen]

/-- C9 (witness of the amended claim): on the layer that already carries a `bottom`, the
returned stack has one layer, whose attributes other than `bottom` are the prior ones and
whose `bottom` is the list of collected `Fill` results. -/
theorem Modify_frame_witness :
    ([withBottom priorBottomLayer [[sq.outline]]] : List PartitionedLayer).length
      = [priorBottomLayer].length
    ∧ (∀ i : Nat, (i : Int) ≠ 0 →
        [withBottom priorBottomLayer [[sq.outline]]][i]? = [priorBottomLayer][i]?)
    ∧ ∃ layer newLayer, index? [priorBottomLayer] 0 = some layer
        ∧ index? [withBottom priorBottomLayer [[sq.outline]]] 0 = some newLayer
        ∧ newLayer.LayerParts = layer.LayerParts
        ∧ newLayer.Bounds = layer.Bounds
        ∧ (∀ key, key ≠ "bottom" → newLayer.Attributes key = layer.Attributes key)
        ∧ newLayer.Attributes "bottom"
            = (if collected okClipper (Modify okClipper defaultOptions 0 [priorBottomLayer]).calls
                  = [] then layer.Attributes "bottom"
               else some (AttrValue.pathsList
                (collected okClipper (Modify okClipper defaultOptions 0 [priorBottomLayer]).calls)))
        ∧ (layer.Attributes "bottom" = none →
            (newLayer.Attributes "bottom" ≠ none
              ↔ collected okClipper (Modify okClipper defaultOptions 0 [priorBottomLayer]).calls
                  ≠ [])) :=
  Modify_frame okClipper defaultOptions 0 [priorBottomLayer]
    [withBottom priorBottomLayer [[sq.outline]]] rfl

theorem partLoop_not_done_of_empty_inset_list (c : Clipper) (o : Options) (layerNr : Int)
    (layers : List PartitionedLayer) (pattern : Pattern)
    (perimeters : List (List (List LayerPart))) (hempty : [] ∈ perimeters)
    (b : List Paths) (calls : List ClipCall) (b1 : List Paths) :
    (partLoop c o layerNr layers pattern perimeters b calls).exit ≠ LoopExit.done b1 := by
  induction perimeters generalizing b calls with
  | nil => simp at hempty
  | cons part rest ih =>
    rw [partLoop]
    cases part with
    | nil => simp [index?]
    | cons inset insets =>
      have hrest : [] ∈ rest := by simpa using hempty
      cases hidx : index? (inset :: insets) (((inset :: insets).length : Int) - 1) with
      | none => simp
      | some innermost =>
        dsimp only
        rcases hrun : islandLoop c o layerNr layers pattern innermost b calls with ⟨exit, calls1⟩
        cases exit with
        | done b2 => exact ih hrest b2 calls1
        | failed err => simp
        | panicked => simp

/-- On every layer whose `perimeters` holds a part with an empty inset list, `Modify` does
not return a layer stack: it panics or returns an error. -/
theorem Modify_never_returns_on_empty_inset_list (c : Clipper) (o : Options) (layerNr : Int)
    (layers : List PartitionedLayer) (layer : PartitionedLayer)
    (perimeters : List (List (List LayerPart)))
    (hlayer : index? layers layerNr = some layer)
    (hattr : layer.Attributes "perimeters" = some (AttrValue.layerParts3 perimeters))
    (hempty : [] ∈ perimeters) (result : List PartitionedLayer) :
    (Modify c o layerNr layers).outcome ≠ ModifyOutcome.returned result := by
  have h := partLoop_not_done_of_empty_inset_list c o layerNr layers
    (c.LinearPattern layer.Bounds.1 layer.Bounds.2 o.Printer.ExtrusionWidth) perimeters hempty []
    [ClipCall.linearPattern layer.Bounds.1 layer.Bounds.2 o.Printer.ExtrusionWidth]
  simp only [Modify, hlayer, hattr]
  rcases hrun : partLoop c o layerNr layers
    (c.LinearPattern layer.Bounds.1 layer.Bounds.2 o.Printer.ExtrusionWidth) perimeters []
    [ClipCall.linearPattern layer.Bounds.1 layer.Bounds.2 o.Printer.ExtrusionWidth]
    with ⟨exit, calls⟩
  rw [hrun] at h
  cases exit with
  | done b => exact absurd rfl (h b)
  | failed err => simp [finish]
  | panicked => simp [finish]

/-- C2 (evaluation at the failing input): on a one-layer stack whose `perimeters` holds a
part with an empty inset list, `Modify` at layer 0 panics on `part[len(part)-1]` before it
makes any `Fill` or `Difference` call. -/
theorem Modify_panics_on_empty_inset_list :
    (Modify okClipper defaultOptions 0 [noInsetLayer]).outcome = ModifyOutcome.panicked
    ∧ (Modify okClipper defaultOptions 0 [noInsetLayer]).calls
        = [ClipCall.linearPattern ⟨0, 0⟩ ⟨10, 10⟩ 400] := by
  constructor <;> rfl

/-! ### Helper lemmas on the loops of `Process` -/

theorem foldl_specStep_none {W : Type} (m : LayerModifier W) (idx : List Nat) :
    idx.foldl (specStep m) none = none := by
  induction idx with
  | nil => rfl
  | cons i rest ih => simpa [specStep] using ih

theorem foldl_specPass_none {W : Type} (optimizedModel : OptimizedModel W)
    (mods : List (LayerModifier W)) :
    mods.foldl (specPass optimizedModel) none = none := by
  induction mods with
  | nil => rfl
  | cons m rest ih => simpa [specPass] using ih

theorem layerLoop_refines {W : Type} (m : LayerModifier W) (k remaining layerNr : Nat)
    (layers final : List PartitionedLayer) (w w1 : W) (trace : List Event)
    (h : (List.range' layerNr remaining).foldl (specStep m) (some (layers, w)) = some (final, w1)) :
    ∃ events, layerLoop m k remaining layerNr layers w trace
        = ⟨StageExit.done final, trace ++ events, w1⟩
      ∧ events.map Event.kind = (List.range' layerNr remaining).map (EventKind.modify k) := by
  induction remaining generalizing layerNr layers w trace with
  | zero =>
    simp only [List.range'_zero, List.foldl_nil, Option.some.injEq, Prod.mk.injEq] at h
    obtain ⟨h1, h2⟩ := h
    subst h1 h2
    exact ⟨[], by simp [layerLoop], rfl⟩
  | succ n ih =>
    rw [List.range'_succ, List.foldl_cons] at h
    rw [layerLoop]
    rcases hm : m.Modify (layerNr : Int) layers w with ⟨result, w2⟩
    cases result with
    | returned layers1 =>
      have hstep : specStep m (some (layers, w)) layerNr = some (layers1, w2) := by
        simp [specStep, hm]
      rw [hstep] at h
      obtain ⟨events, hrun, hkinds⟩ := ih (layerNr + 1) layers1 w2
        (trace ++ [Event.modify k layerNr (ModifyOutcome.returned layers1)]) h
      refine ⟨Event.modify k layerNr (ModifyOutcome.returned layers1) :: events, ?_, ?_⟩
      · simp only
        rw [hrun]
        simp
      · simp [List.range'_succ, hkinds, Event.kind]
    | failed err =>
      have hstep : specStep m (some (layers, w)) layerNr = none := by
        simp [specStep, hm]
      rw [hstep, foldl_specStep_none] at h
      exact absurd h (by simp)
    | panicked =>
      have hstep : specStep m (some (layers, w)) layerNr = none := by
        simp [specStep, hm]
      rw [hstep, foldl_specStep_none] at h
      exact absurd h (by simp)

theorem modifierLoop_refines {W : Type} (optimizedModel : OptimizedModel W)
    (mods : List (LayerModifier W)) (k : Nat) (layers final : List PartitionedLayer)
    (w w1 : W) (trace : List Event)
    (h : specChain optimizedModel mods layers w = some (final, w1)) :
    ∃ events, modifierLoop optimizedModel mods k layers w trace
        = ⟨StageExit.done final, trace ++ events, w1⟩
      ∧ events.map Event.kind = specOrder optimizedModel mods k (some (layers, w)) := by
  induction mods generalizing k layers w trace with
  | nil =>
    simp only [specChain, List.foldl_nil, Option.some.injEq, Prod.mk.injEq] at h
    obtain ⟨h1, h2⟩ := h
    subst h1 h2
    exact ⟨[], by simp [modifierLoop], rfl⟩
  | cons m rest ih =>
    simp only [specChain, List.foldl_cons] at h
    cases hpass : specPass optimizedModel (some (layers, w)) m with
    | none =>
      rw [hpass, foldl_specPass_none] at h
      exact absurd h (by simp)
    | some st =>
      obtain ⟨layers1, w2⟩ := st
      rw [hpass] at h
      have hfold : (List.range' 0 layers.length).foldl (specStep m)
          (some (layers, m.Init optimizedModel w)) = some (layers1, w2) := by
        rw [← List.range_eq_range']
        simpa [specPass] using hpass
      obtain ⟨ev1, hrun1, hk1⟩ := layerLoop_refines m k layers.length 0 layers layers1
        (m.Init optimizedModel w) w2 (trace ++ [Event.modifierInit k]) hfold
      obtain ⟨ev2, hrun2, hk2⟩ := ih (k + 1) layers1 w2
        (trace ++ [Event.modifierInit k] ++ ev1) h
      refine ⟨Event.modifierInit k :: ev1 ++ ev2, ?_, ?_⟩
      · rw [modifierLoop, hrun1]
        simp only
        rw [hrun2]
        simp
      · rw [specOrder, hpass]
        simp [hk1, hk2, Event.kind, List.range_eq_range']

theorem shaped_of_clean (exit : StageExit) (trace : List Event)
    (hexit : ∀ err, exit ≠ StageExit.failed err)
    (h : ∀ x ∈ trace, x.abortError = none) : exit.shaped trace := by
  cases exit with
  | done layers => exact h
  | failed err => exact absurd rfl (hexit err)
  | panicked => exact h

theorem layerLoop_shaped {W : Type} (m : LayerModifier W) (k remaining layerNr : Nat)
    (layers : List PartitionedLayer) (w : W) (trace : List Event)
    (htrace : ∀ x ∈ trace, x.abortError = none) :
    (layerLoop m k remaining layerNr layers w trace).exit.shaped
      (layerLoop m k remaining layerNr layers w trace).trace := by
  induction remaining generalizing layerNr layers w trace with
  | zero => simpa [layerLoop, StageExit.shaped] using htrace
  | succ n ih =>
    rw [layerLoop]
    rcases hm : m.Modify (layerNr : Int) layers w with ⟨result, w2⟩
    cases result with
    | returned layers1 =>
      simp only
      apply ih
      intro x hx
      rcases List.mem_append.mp hx with h | h
      · exact htrace x h
      · simp only [List.mem_singleton] at h
        subst h
        rfl
    | failed err => exact ⟨trace, _, rfl, htrace, rfl⟩
    | panicked =>
      intro x hx
      rcases List.mem_append.mp hx with h | h
      · exact htrace x h
      · simp only [List.mem_singleton] at h
        subst h
        rfl

theorem modifierLoop_shaped {W : Type} (optimizedModel : OptimizedModel W)
    (mods : List (LayerModifier W)) (k : Nat) (layers : List PartitionedLayer) (w : W)
    (trace : List Event) (htrace : ∀ x ∈ trace, x.abortError = none) :
    (modifierLoop optimizedModel mods k layers w trace).exit.shaped
      (modifierLoop optimizedModel mods k layers w trace).trace := by
  induction mods generalizing k layers w trace with
  | nil => simpa [modifierLoop, StageExit.shaped] using htrace
  | cons m rest ih =>
    rw [modifierLoop]
    have hclean : ∀ x ∈ trace ++ [Event.modifierInit k], x.abortError = none := by
      intro x hx
      rcases List.mem_append.mp hx with h | h
      · exact htrace x h
      · simp only [List.mem_singleton] at h
        subst h
        rfl
    have hl := layerLoop_shaped m k layers.length 0 layers (m.Init optimizedModel w)
      (trace ++ [Event.modifierInit k]) hclean
    rcases hrun : layerLoop m k layers.length 0 layers (m.Init optimizedModel w)
      (trace ++ [Event.modifierInit k]) with ⟨exit, trace1, w1⟩
    rw [hrun] at hl
    cases exit with
    | done layers1 => exact ih (k + 1) layers1 w1 trace1 hl
    | failed err => exact hl
    | panicked => exact hl

/-- The trace of `Process`: either no call of the reader, the optimizer, the slicer or a
`Modify` returned an error, or the last call made is the only such call and `Process`
returns its error. -/
theorem Process_trace_shape {W : Type} (s : GoSlice W) (filename outFilename : String) (w : W) :
    (∀ x ∈ (Process s filename outFilename w).trace, x.abortError = none)
    ∨ ∃ pre ev err, (Process s filename outFilename w).trace = pre ++ [ev]
        ∧ (∀ x ∈ pre, x.abortError = none) ∧ ev.abortError = some err
        ∧ (Process s filename outFilename w).outcome = ProcessOutcome.returned (some err) := by
  unfold Process
  rcases s.reader.Read filename w with ⟨rd, w1⟩
  cases rd with
  | error err =>
    exact Or.inr ⟨[], _, err, rfl, by simp, rfl, rfl⟩
  | ok models =>
    simp only
    cases index? models 0 with
    | none => left; simp [Event.abortError]
    | some model =>
      simp only
      rcases s.optimizer.Optimize model w1 with ⟨op, w2⟩
      cases op with
      | error err =>
        exact Or.inr ⟨[Event.read filename none], _, err, rfl, by simp [Event.abortError], rfl, rfl⟩
      | ok optimizedModel =>
        simp only
        rcases s.slicer.Slice optimizedModel (optimizedModel.SaveDebugSTL "test.stl" w2)
          with ⟨sl, w4⟩
        cases sl with
        | error err =>
          exact Or.inr ⟨[Event.read filename none, Event.optimize none, Event.saveDebugSTL], _,
            err, rfl, by simp [Event.abortError], rfl, rfl⟩
        | ok layers =>
          simp only
          have hs := modifierLoop_shaped optimizedModel s.modifiers 0 layers w4
            [Event.read filename none, Event.optimize none, Event.saveDebugSTL,
              Event.slice none] (by simp [Event.abortError])
          rcases hrun : modifierLoop optimizedModel s.modifiers 0 layers w4
            [Event.read filename none, Event.optimize none, Event.saveDebugSTL,
              Event.slice none] with ⟨exit, trace, w5⟩
          rw [hrun] at hs
          cases exit with
          | failed err =>
            obtain ⟨pre, ev, htr, hpre, hev⟩ := hs
            exact Or.inr ⟨pre, ev, err, htr, hpre, hev, rfl⟩
          | panicked => exact Or.inl hs
          | done layers1 =>
            left
            intro x hx
            simp only [generateAndWrite, List.mem_append, List.mem_cons, List.mem_singleton,
              List.not_mem_nil, or_false] at hx
            rcases hx with h | h | h | h
            · exact hs x h
            · subst h; rfl
            · subst h; rfl
            · subst h; rfl

/-! ### Claims on `GoSlice.Process` -/

/-- Whenever the reader, the optimizer, the slicer and every `Modify` succeed, `Process`
returns nil, whatever `Write` returns; the last call it makes is that `Write`. -/
theorem Process_returns_nil_after_write {W : Type} (s : GoSlice W)
    (filename outFilename : String) (w w1 w2 w4 w5 : W) (model : Model) (others : List Model)
    (optimizedModel : OptimizedModel W) (layers final : List PartitionedLayer)
    (hread : s.reader.Read filename w = (Except.ok (model :: others), w1))
    (hoptimize : s.optimizer.Optimize model w1 = (Except.ok optimizedModel, w2))
    (hslice : s.slicer.Slice optimizedModel (optimizedModel.SaveDebugSTL "test.stl" w2)
      = (Except.ok layers, w4))
    (hchain : specChain optimizedModel s.modifiers layers w4 = some (final, w5)) :
    (Process s filename outFilename w).outcome = ProcessOutcome.returned none
    ∧ (Process s filename outFilename w).trace.getLast?
        = some (Event.write (s.generator.Generate final (s.generator.Init optimizedModel w5)).1
            outFilename
            (s.writer.Write (s.generator.Generate final (s.generator.Init optimizedModel w5)).1
              outFilename
              (s.generator.Generate final (s.generator.Init optimizedModel w5)).2).1) := by
  obtain ⟨events, hrun, _⟩ := modifierLoop_refines optimizedModel s.modifiers 0 layers
    final w4 w5 [Event.read filename none, Event.optimize none, Event.saveDebugSTL,
      Event.slice none] hchain
  have hidx : index? (model :: others) 0 = some model := by simp [index?]
  unfold Process
  rw [hread]
  simp only
  rw [hidx]
  simp only
  rw [hoptimize]
  simp only
  rw [hslice]
  simp only
  rw [hrun]
  refine ⟨rfl, ?_⟩
  simp only [generateAndWrite]
  rw [show ∀ (l : List Event) (a b c : Event), l ++ [a, b, c] = (l ++ [a, b]) ++ [c] from
    fun l a b c => by simp]
  exact List.getLast?_concat _

/-- C1 (evaluation at a failing input): with every stage succeeding and a writer whose
`Write` returns an error, `Process` calls `Write`, gets the error, and returns nil. -/
theorem Process_drops_write_error :
    (Process (demoSlice [countingModifier] (some ⟨"disk full"⟩)) "in.stl" "out.gcode" 0).outcome
      = ProcessOutcome.returned none
    ∧ (Process (demoSlice [countingModifier] (some ⟨"disk full"⟩)) "in.stl" "out.gcode" 0).trace.getLast?
      = some (Event.write "G28" "out.gcode" (some ⟨"disk full"⟩)) := by
  constructor <;> rfl

/-- C5: when the reader, the optimizer, the slicer and every `Modify` of the fold succeed,
`Process` makes its calls in the order read, optimize, debug dump, slice, then for each
modifier in list order its `Init` followed by its `Modify` on the layer indices
`0, ..., n-1` in ascending order (each once, and all before the next modifier's `Init`),
then generator `Init`, `Generate`, `Write`; and the stack handed to `Generate` is the fold
over the modifiers of the fold over the layer indices of `Modify`, starting from the
slicer's output. -/
theorem Process_runs_modifier_chain {W : Type} (s : GoSlice W) (filename outFilename : String)
    (w w1 w2 w4 w5 : W) (model : Model) (others : List Model)
    (optimizedModel : OptimizedModel W) (layers final : List PartitionedLayer)
    (hread : s.reader.Read filename w = (Except.ok (model :: others), w1))
    (hoptimize : s.optimizer.Optimize model w1 = (Except.ok optimizedModel, w2))
    (hslice : s.slicer.Slice optimizedModel (optimizedModel.SaveDebugSTL "test.stl" w2)
      = (Except.ok layers, w4))
    (hchain : specChain optimizedModel s.modifiers layers w4 = some (final, w5)) :
    ∃ modifierCalls gcode err,
      (Process s filename outFilename w).trace
        = [Event.read filename none, Event.optimize none, Event.saveDebugSTL, Event.slice none]
          ++ modifierCalls
          ++ [Event.generatorInit, Event.generate final, Event.write gcode outFilename err]
      ∧ modifierCalls.map Event.kind
          = specOrder optimizedModel s.modifiers 0 (some (layers, w4))
      ∧ gcode = (s.generator.Generate final (s.generator.Init optimizedModel w5)).1 := by
  obtain ⟨events, hrun, hkinds⟩ := modifierLoop_refines optimizedModel s.modifiers 0 layers
    final w4 w5 [Event.read filename none, Event.optimize none, Event.saveDebugSTL,
      Event.slice none] hchain
  refine ⟨events, (s.generator.Generate final (s.generator.Init optimizedModel w5)).1,
    (s.writer.Write (s.generator.Generate final (s.generator.Init optimizedModel w5)).1
      outFilename (s.generator.Generate final (s.generator.Init optimizedModel w5)).2).1,
    ?_, hkinds, rfl⟩
  have hidx : index? (model :: others) 0 = some model := by simp [index?]
  unfold Process
  rw [hread]
  simp only
  rw [hidx]
  simp only
  rw [hoptimize]
  simp only
  rw [hslice]
  simp only
  rw [hrun]
  simp [generateAndWrite]

/-- C5 (witness): two layers and two modifiers; the calls on the modifiers are `Init` of
the first, its `Modify` on layers 0 and 1, then the same for the second. -/
theorem Process_runs_modifier_chain_witness :
    specOrder plainModel [countingModifier, countingModifier] 0 (some (twoLayers, 0))
      = [EventKind.modifierInit 0, EventKind.modify 0 0, EventKind.modify 0 1,
         EventKind.modifierInit 1, EventKind.modify 1 0, EventKind.modify 1 1]
    ∧ ∃ modifierCalls gcode err,
      (Process (demoSlice [countingModifier, countingModifier] none) "in.stl" "out.gcode" 0).trace
        = [Event.read "in.stl" none, Event.optimize none, Event.saveDebugSTL, Event.slice none]
          ++ modifierCalls
          ++ [Event.generatorInit, Event.generate twoLayers, Event.write gcode "out.gcode" err]
      ∧ modifierCalls.map Event.kind
          = specOrder plainModel [countingModifier, countingModifier] 0 (some (twoLayers, 0))
      ∧ gcode = ((demoSlice [countingModifier, countingModifier] none).generator.Generate
          twoLayers ((demoSlice [countingModifier, countingModifier] none).generator.Init
            plainModel 2)).1 :=
  ⟨by decide, Process_runs_modifier_chain (demoSlice [countingModifier, countingModifier] none)
    "in.stl" "out.gcode" 0 0 0 0 2 [] [] plainModel twoLayers twoLayers rfl rfl rfl rfl⟩

/-- C6: if a call of the reader, the optimizer, the slicer or a `Modify` returns an error,
that call is the last call `Process` makes on any collaborator (no later layer, modifier,
g-code generation or write), and `Process` returns exactly that error. -/
theorem Process_short_circuits {W : Type} (s : GoSlice W) (filename outFilename : String)
    (w : W) (pre post : List Event) (ev : Event) (err : GoError)
    (htrace : (Process s filename outFilename w).trace = pre ++ ev :: post)
    (herr : ev.abortError = some err) :
    post = []
    ∧ (Process s filename outFilename w).outcome = ProcessOutcome.returned (some err) := by
  rcases Process_trace_shape s filename outFilename w with hclean | ⟨pre1, ev1, err1, htr, hpre, hev, hout⟩
  · have := hclean ev (by rw [htrace]; simp)
    rw [this] at herr
    exact absurd herr (by simp)
  · rw [htrace] at htr
    rcases List.append_eq_append_iff.mp htr with ⟨a, h1, h2⟩ | ⟨c, h1, h2⟩
    · cases a with
      | nil =>
        simp only [List.nil_append, List.cons.injEq] at h2
        obtain ⟨hevs, hpost⟩ := h2
        subst hevs
        rw [hev] at herr
        injection herr with herr
        subst herr
        exact ⟨hpost, hout⟩
      | cons x xs =>
        simp only [List.cons_append, List.cons.injEq] at h2
        obtain ⟨hx, _⟩ := h2
        subst hx
        have := hpre ev (by rw [h1]; simp)
        rw [this] at herr
        exact absurd herr (by simp)
    · cases c with
      | nil =>
        simp only [List.nil_append, List.cons.injEq] at h2
        obtain ⟨hevs, hpost⟩ := h2
        subst hevs
        rw [hev] at herr
        injection herr with herr
        subst herr
        exact ⟨hpost.symm, hout⟩
      | cons x xs =>
        have hlen := congrArg List.length h2
        simp at hlen

/-- C6 (witness): the second of two modifiers fails at layer 1. -/
theorem Process_short_circuits_witness :
    ([] : List Event) = []
    ∧ (Process (demoSlice [countingModifier, failingModifier] none) "in.stl" "out.gcode" 0).outcome
      = ProcessOutcome.returned (some ⟨"modify failed"⟩) :=
  Process_short_circuits (demoSlice [countingModifier, failingModifier] none) "in.stl"
    "out.gcode" 0
    [Event.read "in.stl" none, Event.optimize none, Event.saveDebugSTL, Event.slice none,
      Event.modifierInit 0, Event.modify 0 0 (ModifyOutcome.returned twoLayers),
      Event.modify 0 1 (ModifyOutcome.returned twoLayers), Event.modifierInit 1,
      Event.modify 1 0 (ModifyOutcome.returned twoLayers)] []
    (Event.modify 1 1 (ModifyOutcome.failed ⟨"modify failed"⟩)) ⟨"modify failed"⟩ rfl rfl

/-! ### Float64 rounding -/

theorem floor_le_roundHalfEven (y : ℚ) : ⌊y⌋ ≤ roundHalfEven y := by
  unfold roundHalfEven
  split_ifs <;> omega

theorem roundHalfEven_le_ceil (y : ℚ) : roundHalfEven y ≤ ⌈y⌉ := by
  unfold roundHalfEven
  have hfl : (⌊y⌋ : ℚ) ≤ y := Int.floor_le y
  split_ifs with h1 h2 h3
  · exact Int.floor_le_ceil y
  · have : (⌊y⌋ : ℚ) < y := by linarith
    have h : ⌊y⌋ < ⌈y⌉ := by
      have := Int.le_ceil y
      exact_mod_cast lt_of_lt_of_le ‹(⌊y⌋ : ℚ) < y› this
    omega
  · exact Int.floor_le_ceil y
  · have hy : y - ⌊y⌋ = 1 / 2 := le_antisymm (not_lt.mp h2) (not_lt.mp h1)
    have : (⌊y⌋ : ℚ) < y := by linarith
    have h : ⌊y⌋ < ⌈y⌉ := by
      have := Int.le_ceil y
      exact_mod_cast lt_of_lt_of_le ‹(⌊y⌋ : ℚ) < y› this
    omega

theorem roundHalfEven_eq (y : ℚ) (k : Int) (h : |y - k| < 1 / 2) : roundHalfEven y = k := by
  have h1 := abs_lt.mp h
  unfold roundHalfEven
  by_cases hk : (k : ℚ) ≤ y
  · have hf : ⌊y⌋ = k := by
      rw [Int.floor_eq_iff]
      constructor
      · exact hk
      · linarith [h1.2]
    rw [hf]
    have : y - k < 1 / 2 := h1.2
    rw [if_pos this]
  · have hf : ⌊y⌋ = k - 1 := by
      rw [Int.floor_eq_iff]
      push_cast
      constructor
      · linarith [h1.1]
      · linarith [not_le.mp hk]
    rw [hf]
    have h2 : ¬ (y - ((k - 1 : Int) : ℚ) < 1 / 2) := by push_cast; linarith [h1.1]
    have h3 : 1 / 2 < y - ((k - 1 : Int) : ℚ) := by push_cast; linarith [h1.1]
    simp only [h2, h3, if_true, if_false]
    omega

theorem scaled_range (x : ℚ) (hx : 0 < x) :
    (2 : ℚ) ^ (52 : ℤ) ≤ x * (2 : ℚ) ^ (52 - Int.log 2 |x|)
    ∧ x * (2 : ℚ) ^ (52 - Int.log 2 |x|) < (2 : ℚ) ^ (53 : ℤ) := by
  rw [abs_of_pos hx]
  have h1 : ((2 : ℕ) : ℚ) ^ Int.log 2 x ≤ x := Int.zpow_log_le_self (by norm_num) hx
  have h2 : x < ((2 : ℕ) : ℚ) ^ (Int.log 2 x + 1) := Int.lt_zpow_succ_log_self (by norm_num) x
  push_cast at h1 h2
  have hpos : (0 : ℚ) < (2 : ℚ) ^ (52 - Int.log 2 x) := by positivity
  constructor
  · calc (2 : ℚ) ^ (52 : ℤ) = (2 : ℚ) ^ Int.log 2 x * (2 : ℚ) ^ (52 - Int.log 2 x) := by
          rw [← zpow_add₀ (by norm_num : (2 : ℚ) ≠ 0)]; congr 1; ring
      _ ≤ x * (2 : ℚ) ^ (52 - Int.log 2 x) := by
          exact mul_le_mul_of_nonneg_right h1 hpos.le
  · calc x * (2 : ℚ) ^ (52 - Int.log 2 x)
        < (2 : ℚ) ^ (Int.log 2 x + 1) * (2 : ℚ) ^ (52 - Int.log 2 x) := by
          exact mul_lt_mul_of_pos_right h2 hpos
      _ = (2 : ℚ) ^ (53 : ℤ) := by
          rw [← zpow_add₀ (by norm_num : (2 : ℚ) ≠ 0)]; congr 1; ring

theorem float64_dichotomy (k t : Int) (hk : |k| < 2 ^ 53) :
    (∃ z : Int, (k : ℚ) * (2 : ℚ) ^ t = z) ∨ |(k : ℚ) * (2 : ℚ) ^ t| < (2 : ℚ) ^ (52 : ℤ) := by
  by_cases ht : 0 ≤ t
  · left
    obtain ⟨n, rfl⟩ := Int.eq_ofNat_of_zero_le ht
    exact ⟨k * 2 ^ n, by push_cast; rw [zpow_natCast]⟩
  · right
    have ht1 : t ≤ -1 := by omega
    have hkq : |(k : ℚ)| < (2 : ℚ) ^ (53 : ℤ) := by
      have : ((|k| : Int) : ℚ) < ((2 ^ 53 : Int) : ℚ) := by exact_mod_cast hk
      rw [Int.cast_abs] at this
      norm_num at this ⊢
      exact this
    have h2 : (2 : ℚ) ^ t ≤ (2 : ℚ) ^ (-1 : ℤ) := zpow_le_zpow_right₀ (by norm_num) ht1
    have hpos : (0 : ℚ) < (2 : ℚ) ^ t := by positivity
    rw [abs_mul, abs_of_pos hpos]
    calc |(k : ℚ)| * (2 : ℚ) ^ t ≤ |(k : ℚ)| * (2 : ℚ) ^ (-1 : ℤ) :=
          mul_le_mul_of_nonneg_left h2 (abs_nonneg _)
      _ < (2 : ℚ) ^ (53 : ℤ) * (2 : ℚ) ^ (-1 : ℤ) :=
          mul_lt_mul_of_pos_right hkq (by positivity)
      _ = (2 : ℚ) ^ (52 : ℤ) := by norm_num

theorem roundFloat64_scaled (x : ℚ) (hx : 0 < x) :
    roundFloat64 x * (2 : ℚ) ^ (52 - Int.log 2 |x|)
      = (roundHalfEven (x * (2 : ℚ) ^ (52 - Int.log 2 |x|)) : ℚ) := by
  unfold roundFloat64
  rw [if_neg hx.ne', mul_assoc, ← zpow_add₀ (by norm_num : (2 : ℚ) ≠ 0)]
  simp

/-- A float64 below `x` is below the rounding of `x`. -/
theorem le_roundFloat64 (x lo : ℚ) (hx : 0 < x) (hlo : IsFloat64 lo) (h : lo ≤ x) :
    lo ≤ roundFloat64 x := by
  obtain ⟨k, j, hk, rfl⟩ := hlo
  have hs := scaled_range x hx
  have hpos : (0 : ℚ) < (2 : ℚ) ^ (52 - Int.log 2 |x|) := by positivity
  have hfl := floor_le_roundHalfEven (x * (2 : ℚ) ^ (52 - Int.log 2 |x|))
  have hflq : ((⌊x * (2 : ℚ) ^ (52 - Int.log 2 |x|)⌋ : Int) : ℚ)
      ≤ (roundHalfEven (x * (2 : ℚ) ^ (52 - Int.log 2 |x|)) : ℚ) := by exact_mod_cast hfl
  rw [← roundFloat64_scaled x hx] at hflq
  have hscaled : (k : ℚ) * (2 : ℚ) ^ j * (2 : ℚ) ^ (52 - Int.log 2 |x|)
      = (k : ℚ) * (2 : ℚ) ^ (j + (52 - Int.log 2 |x|)) := by
    rw [mul_assoc, ← zpow_add₀ (by norm_num : (2 : ℚ) ≠ 0)]
  have hle : (k : ℚ) * (2 : ℚ) ^ j * (2 : ℚ) ^ (52 - Int.log 2 |x|)
      ≤ x * (2 : ℚ) ^ (52 - Int.log 2 |x|) := mul_le_mul_of_nonneg_right h hpos.le
  have key : (k : ℚ) * (2 : ℚ) ^ j * (2 : ℚ) ^ (52 - Int.log 2 |x|)
      ≤ ((⌊x * (2 : ℚ) ^ (52 - Int.log 2 |x|)⌋ : Int) : ℚ) := by
    rcases float64_dichotomy k (j + (52 - Int.log 2 |x|)) hk with ⟨z, hz⟩ | hsmall
    · rw [hscaled, hz] at hle ⊢
      exact_mod_cast Int.le_floor.mpr hle
    · rw [hscaled]
      have h52 : ((2 ^ 52 : Int) : ℚ) ≤ x * (2 : ℚ) ^ (52 - Int.log 2 |x|) := by
        have := hs.1
        norm_num at this ⊢
        exact this
      have hfloor : (2 ^ 52 : Int) ≤ ⌊x * (2 : ℚ) ^ (52 - Int.log 2 |x|)⌋ := Int.le_floor.mpr h52
      have hfloorq : ((2 ^ 52 : Int) : ℚ) ≤ ((⌊x * (2 : ℚ) ^ (52 - Int.log 2 |x|)⌋ : Int) : ℚ) := by
        exact_mod_cast hfloor
      have := (abs_lt.mp hsmall).2
      norm_num at this hfloorq ⊢
      linarith
  exact le_of_mul_le_mul_right (le_trans key hflq) hpos

/-- A float64 above `x` is above the rounding of `x`. -/
theorem roundFloat64_le (x hi : ℚ) (hx : 0 < x) (hhi : IsFloat64 hi) (h : x ≤ hi) :
    roundFloat64 x ≤ hi := by
  obtain ⟨k, j, hk, rfl⟩ := hhi
  have hs := scaled_range x hx
  have hpos : (0 : ℚ) < (2 : ℚ) ^ (52 - Int.log 2 |x|) := by positivity
  have hcl := roundHalfEven_le_ceil (x * (2 : ℚ) ^ (52 - Int.log 2 |x|))
  have hclq : (roundHalfEven (x * (2 : ℚ) ^ (52 - Int.log 2 |x|)) : ℚ)
      ≤ ((⌈x * (2 : ℚ) ^ (52 - Int.log 2 |x|)⌉ : Int) : ℚ) := by exact_mod_cast hcl
  rw [← roundFloat64_scaled x hx] at hclq
  have hscaled : (k : ℚ) * (2 : ℚ) ^ j * (2 : ℚ) ^ (52 - Int.log 2 |x|)
      = (k : ℚ) * (2 : ℚ) ^ (j + (52 - Int.log 2 |x|)) := by
    rw [mul_assoc, ← zpow_add₀ (by norm_num : (2 : ℚ) ≠ 0)]
  have hle : x * (2 : ℚ) ^ (52 - Int.log 2 |x|)
      ≤ (k : ℚ) * (2 : ℚ) ^ j * (2 : ℚ) ^ (52 - Int.log 2 |x|) :=
    mul_le_mul_of_nonneg_right h hpos.le
  have key : ((⌈x * (2 : ℚ) ^ (52 - Int.log 2 |x|)⌉ : Int) : ℚ)
      ≤ (k : ℚ) * (2 : ℚ) ^ j * (2 : ℚ) ^ (52 - Int.log 2 |x|) := by
    rcases float64_dichotomy k (j + (52 - Int.log 2 |x|)) hk with ⟨z, hz⟩ | hsmall
    · rw [hscaled, hz] at hle ⊢
      exact_mod_cast Int.ceil_le.mpr hle
    · rw [hscaled] at hle
      have := (abs_lt.mp hsmall).2
      have := hs.1
      linarith
  exact le_of_mul_le_mul_right (le_trans hclq key) hpos

/-- A positive float64 rounds to itself. -/
theorem roundFloat64_of_isFloat64 (x : ℚ) (hx : 0 < x) (h : IsFloat64 x) : roundFloat64 x = x :=
  le_antisymm (roundFloat64_le x x hx h le_rfl) (le_roundFloat64 x x hx h le_rfl)

theorem isFloat64_intCast (n : Int) (hn : |n| < 2 ^ 53) : IsFloat64 (n : ℚ) :=
  ⟨n, 0, hn, by simp⟩

theorem isFloat64_div_pow (n : Int) (s : Nat) (hn : |n| < 2 ^ 53) :
    IsFloat64 ((n : ℚ) / 2 ^ s) :=
  ⟨n, -(s : Int), hn, by rw [zpow_neg, zpow_natCast, div_eq_mul_inv]⟩

/-- Evaluation of `roundFloat64` from a certificate: the binade of `x` and the nearest
multiple of the spacing. -/
theorem roundFloat64_eq (x : ℚ) (k j : Int)
    (hlo : (2 : ℚ) ^ (52 + j) ≤ x) (hhi : x < (2 : ℚ) ^ (53 + j))
    (hk : |x * (2 : ℚ) ^ (-j) - k| < 1 / 2) :
    roundFloat64 x = (k : ℚ) * (2 : ℚ) ^ j := by
  have hx : 0 < x := lt_of_lt_of_le (by positivity) hlo
  have hlog : Int.log 2 |x| = 52 + j := by
    rw [abs_of_pos hx]
    apply le_antisymm
    · have := (Int.lt_zpow_iff_log_lt (b := 2) (by norm_num) (x := 52 + j + 1) hx).mp
        (by push_cast; rw [show 52 + j + 1 = 53 + j by ring]; exact hhi)
      omega
    · exact (Int.zpow_le_iff_le_log (b := 2) (by norm_num) hx).mp (by push_cast; exact hlo)
  unfold roundFloat64
  rw [if_neg hx.ne', hlog]
  have e1 : (52 : ℤ) - (52 + j) = -j := by ring
  have e2 : (52 : ℤ) + j - 52 = j := by ring
  rw [e1, e2, roundHalfEven_eq _ k hk]



theorem micrometerOfFloat64_eq (f : ℚ) (n : Nat) (hn : n ≤ 1000000) (h1 : (n : ℚ) ≤ f)
    (h2 : f < n + 1) : micrometerOfFloat64 f = some (n : Int) := by
  have h0 : (0 : ℚ) ≤ f := le_trans (by positivity) h1
  have hfloor : ⌊f⌋ = (n : Int) := by
    rw [Int.floor_eq_iff]
    push_cast
    exact ⟨h1, h2⟩
  unfold micrometerOfFloat64
  simp only [h0, if_true, hfloor]
  rw [if_pos]
  constructor <;> omega

/-- The two roundings of the sparse spacing, in the general case: `m` does not divide
`10^6`. -/
theorem chain_bounds_of_not_dvd (m N r : Nat) (hm : 1 ≤ m) (hm2 : m ≤ 1000000)
    (hN : N * m + r = 1000000) (hr1 : 1 ≤ r) (hr2 : r < m) :
    0 < roundFloat64 ((m : ℚ) / 100)
    ∧ (N : ℚ) ≤ roundFloat64 (10000 / roundFloat64 ((m : ℚ) / 100))
    ∧ roundFloat64 (10000 / roundFloat64 ((m : ℚ) / 100)) < N + 1 := by
  have hmq : (1 : ℚ) ≤ m := by exact_mod_cast hm
  have hmq2 : (m : ℚ) ≤ 1000000 := by exact_mod_cast hm2
  have hrq1 : (1 : ℚ) ≤ r := by exact_mod_cast hr1
  have hrq2 : (r : ℚ) + 1 ≤ m := by exact_mod_cast hr2
  have hNq : (N : ℚ) * m + r = 1000000 := by exact_mod_cast hN
  have hN0 : (0 : ℚ) ≤ N := by positivity
  have hNle : (N : ℚ) ≤ 1000000 := by
    have : N ≤ 1000000 := by
      have : N * 1 ≤ N * m := Nat.mul_le_mul_left N hm
      omega
    exact_mod_cast this
  have hx : (0 : ℚ) < (m : ℚ) / 100 := by positivity
  -- the first rounding, between two multiples of 2^-30
  have hp30 : (0 : ℚ) < 2 ^ 30 := by positivity
  have hfl0 : 0 ≤ ⌊(m : ℚ) / 100 * 2 ^ 30⌋ := Int.floor_nonneg.mpr (by positivity)
  have hflle : ((⌊(m : ℚ) / 100 * 2 ^ 30⌋ : Int) : ℚ) ≤ (m : ℚ) / 100 * 2 ^ 30 := Int.floor_le _
  have hfllt : (m : ℚ) / 100 * 2 ^ 30 < ((⌊(m : ℚ) / 100 * 2 ^ 30⌋ : Int) : ℚ) + 1 :=
    Int.lt_floor_add_one _
  have hcele : (m : ℚ) / 100 * 2 ^ 30 ≤ ((⌈(m : ℚ) / 100 * 2 ^ 30⌉ : Int) : ℚ) := Int.le_ceil _
  have hcelt : ((⌈(m : ℚ) / 100 * 2 ^ 30⌉ : Int) : ℚ) < (m : ℚ) / 100 * 2 ^ 30 + 1 :=
    Int.ceil_lt_add_one _
  have hscale : (m : ℚ) / 100 * 2 ^ 30 ≤ 10000 * 2 ^ 30 := by
    have : (m : ℚ) / 100 ≤ 10000 := by linarith
    exact mul_le_mul_of_nonneg_right this hp30.le
  have hce0 : 0 ≤ ⌈(m : ℚ) / 100 * 2 ^ 30⌉ := Int.ceil_nonneg (by positivity)
  have hflbound : |⌊(m : ℚ) / 100 * 2 ^ 30⌋| < 2 ^ 53 := by
    rw [abs_of_nonneg hfl0]
    have : ((⌊(m : ℚ) / 100 * 2 ^ 30⌋ : Int) : ℚ) < ((2 ^ 53 : Int) : ℚ) := by
      push_cast
      calc ((⌊(m : ℚ) / 100 * 2 ^ 30⌋ : Int) : ℚ) ≤ 10000 * 2 ^ 30 := le_trans hflle hscale
        _ < 2 ^ 53 := by norm_num
    exact_mod_cast this
  have hcebound : |⌈(m : ℚ) / 100 * 2 ^ 30⌉| < 2 ^ 53 := by
    rw [abs_of_nonneg hce0]
    have : ((⌈(m : ℚ) / 100 * 2 ^ 30⌉ : Int) : ℚ) < ((2 ^ 53 : Int) : ℚ) := by
      push_cast
      calc ((⌈(m : ℚ) / 100 * 2 ^ 30⌉ : Int) : ℚ) < (m : ℚ) / 100 * 2 ^ 30 + 1 := hcelt
        _ ≤ 10000 * 2 ^ 30 + 1 := by linarith
        _ < 2 ^ 53 := by norm_num
    exact_mod_cast this
  have hlo : ((⌊(m : ℚ) / 100 * 2 ^ 30⌋ : Int) : ℚ) / 2 ^ 30 ≤ roundFloat64 ((m : ℚ) / 100) :=
    le_roundFloat64 _ _ hx (isFloat64_div_pow _ 30 hflbound)
      (by rw [div_le_iff₀ hp30]; exact hflle)
  have hhi : roundFloat64 ((m : ℚ) / 100) ≤ ((⌈(m : ℚ) / 100 * 2 ^ 30⌉ : Int) : ℚ) / 2 ^ 30 :=
    roundFloat64_le _ _ hx (isFloat64_div_pow _ 30 hcebound)
      (by rw [le_div_iff₀ hp30]; exact hcele)
  have hdlo : (m : ℚ) / 100 - 1 / 2 ^ 30 < roundFloat64 ((m : ℚ) / 100) := by
    refine lt_of_lt_of_le ?_ hlo
    rw [lt_div_iff₀ hp30]
    have : ((m : ℚ) / 100 - 1 / 2 ^ 30) * 2 ^ 30 = (m : ℚ) / 100 * 2 ^ 30 - 1 := by
      ring
    rw [this]
    linarith
  have hdhi : roundFloat64 ((m : ℚ) / 100) < (m : ℚ) / 100 + 1 / 2 ^ 30 := by
    refine lt_of_le_of_lt hhi ?_
    rw [div_lt_iff₀ hp30]
    have : ((m : ℚ) / 100 + 1 / 2 ^ 30) * 2 ^ 30 = (m : ℚ) / 100 * 2 ^ 30 + 1 := by
      ring
    rw [this]
    exact hcelt
  have hd0 : 0 < roundFloat64 ((m : ℚ) / 100) := by
    refine lt_trans ?_ hdlo
    have : (1 : ℚ) / 2 ^ 30 < 1 / 100 := by norm_num
    linarith
  refine ⟨hd0, ?_, ?_⟩
  · -- the second rounding is at least N
    have hy : (N : ℚ) ≤ 10000 / roundFloat64 ((m : ℚ) / 100) := by
      rw [le_div_iff₀ hd0]
      have h1 : (N : ℚ) * roundFloat64 ((m : ℚ) / 100) ≤ N * ((m : ℚ) / 100 + 1 / 2 ^ 30) :=
        mul_le_mul_of_nonneg_left hdhi.le hN0
      have h2 : (N : ℚ) * ((m : ℚ) / 100 + 1 / 2 ^ 30) = (N * m) / 100 + N / 2 ^ 30 := by ring
      have h3 : (N : ℚ) / 2 ^ 30 ≤ 1000000 / 2 ^ 30 := by
        exact div_le_div_of_nonneg_right hNle hp30.le
      have h4 : (1000000 : ℚ) / 2 ^ 30 < 1 / 100 := by norm_num
      have h5 : (N : ℚ) * m = 1000000 - r := by linarith
      rw [h2, h5] at h1
      linarith
    have hypos : (0 : ℚ) < 10000 / roundFloat64 ((m : ℚ) / 100) := by positivity
    have hNf : IsFloat64 (N : ℚ) := by
      have := isFloat64_intCast (N : Int) (by
        rw [abs_of_nonneg (by positivity)]
        have : N ≤ 1000000 := by exact_mod_cast hNle
        omega)
      simpa using this
    exact le_roundFloat64 _ _ hypos hNf hy
  · -- the second rounding is at most N + 1 - 2^-30
    have hypos : (0 : ℚ) < 10000 / roundFloat64 ((m : ℚ) / 100) := by positivity
    have hy : 10000 / roundFloat64 ((m : ℚ) / 100)
        ≤ (((N + 1) * 2 ^ 30 - 1 : Int) : ℚ) / 2 ^ 30 := by
      rw [div_le_iff₀ hd0]
      have hc : (0 : ℚ) ≤ (((N + 1) * 2 ^ 30 - 1 : Int) : ℚ) / 2 ^ 30 := by
        apply div_nonneg _ hp30.le
        push_cast
        have : (1 : ℚ) ≤ ((N : ℚ) + 1) * 2 ^ 30 := by
          have : (1 : ℚ) ≤ (N : ℚ) + 1 := by linarith
          nlinarith
        linarith
      have h1 : (((N + 1) * 2 ^ 30 - 1 : Int) : ℚ) / 2 ^ 30 * ((m : ℚ) / 100 - 1 / 2 ^ 30)
          ≤ (((N + 1) * 2 ^ 30 - 1 : Int) : ℚ) / 2 ^ 30 * roundFloat64 ((m : ℚ) / 100) :=
        mul_le_mul_of_nonneg_left hdlo.le hc
      refine le_trans ?_ h1
      have h2 : (((N + 1) * 2 ^ 30 - 1 : Int) : ℚ) / 2 ^ 30 * ((m : ℚ) / 100 - 1 / 2 ^ 30)
          = ((N : ℚ) * m + m) / 100 - (m / 100 + N + 1) / 2 ^ 30 + 1 / 2 ^ 60 := by
        push_cast
        field_simp
        ring
      rw [h2]
      have h5 : (N : ℚ) * m = 1000000 - r := by linarith
      rw [h5]
      have h6 : ((m : ℚ) / 100 + N + 1) / 2 ^ 30 ≤ (10000 + 1000000 + 1) / 2 ^ 30 := by
        apply div_le_div_of_nonneg_right _ hp30.le
        linarith
      have h7 : ((10000 : ℚ) + 1000000 + 1) / 2 ^ 30 < 1 / 100 := by norm_num
      have h8 : (0 : ℚ) < 1 / 2 ^ 60 := by positivity
      have h9 : (10000 : ℚ) + 1 / 100 ≤ (1000000 - (r : ℚ) + m) / 100 := by linarith
      have h10 : ((m : ℚ) / 100 + N + 1) / 2 ^ 30 < 1 / 100 := lt_of_le_of_lt h6 h7
      generalize ((m : ℚ) / 100 + N + 1) / 2 ^ 30 = B at h10
      generalize (1 : ℚ) / 2 ^ 60 = C at h8
      generalize (1000000 - (r : ℚ) + m) / 100 = A at h9
      linarith
    have hhiF : IsFloat64 ((((N + 1) * 2 ^ 30 - 1 : Int) : ℚ) / 2 ^ 30) := by
      apply isFloat64_div_pow
      have hN' : (N : Int) ≤ 1000000 := by exact_mod_cast hNle
      have hN0' : (0 : Int) ≤ N := by positivity
      have e30 : (2 : Int) ^ 30 = 1073741824 := by norm_num
      have e53 : (2 : Int) ^ 53 = 9007199254740992 := by norm_num
      rw [e30, e53, abs_of_nonneg (by omega)]
      omega
    refine lt_of_le_of_lt (roundFloat64_le _ _ hypos hhiF hy) ?_
    rw [div_lt_iff₀ hp30]
    push_cast
    exact sub_one_lt _

/-- The two roundings when `m / 100` is a float64 and `m` divides `10^6`. -/
theorem chain_exact (m N m4 : Nat) (hm : 1 ≤ m) (hN : N * m = 1000000) (h25 : m = 25 * m4) :
    roundFloat64 ((m : ℚ) / 100) = (m : ℚ) / 100
    ∧ roundFloat64 (10000 / roundFloat64 ((m : ℚ) / 100)) = N := by
  have hmq : (1 : ℚ) ≤ m := by exact_mod_cast hm
  have hNq : (N : ℚ) * m = 1000000 := by exact_mod_cast hN
  have hm4 : (m : ℚ) = 25 * m4 := by exact_mod_cast h25
  have hmle : m ≤ 1000000 := by
    have : 1 ≤ N := by
      rcases Nat.eq_zero_or_pos N with h | h
      · rw [h] at hN; simp at hN
      · exact h
    have : 1 * m ≤ N * m := Nat.mul_le_mul_right m this
    omega
  have hNle : N ≤ 1000000 := by
    have : N * 1 ≤ N * m := Nat.mul_le_mul_left N hm
    omega
  have hd : roundFloat64 ((m : ℚ) / 100) = (m : ℚ) / 100 := by
    apply roundFloat64_of_isFloat64 _ (by positivity)
    have := isFloat64_div_pow (m4 : Int) 2 (by
      rw [abs_of_nonneg (by positivity)]
      have : (m4 : Int) ≤ 1000000 := by exact_mod_cast (by omega : m4 ≤ 1000000)
      omega)
    have e : (m : ℚ) / 100 = ((m4 : Int) : ℚ) / 2 ^ 2 := by
      rw [hm4]; push_cast; ring
    rw [e]; exact this
  refine ⟨hd, ?_⟩
  rw [hd]
  have hy : (10000 : ℚ) / ((m : ℚ) / 100) = N := by
    field_simp
    linarith
  rw [hy]
  have hN0 : (0 : ℚ) < N := by
    rcases Nat.eq_zero_or_pos N with h | h
    · rw [h] at hN; simp at hN
    · exact_mod_cast h
  apply roundFloat64_of_isFloat64 _ hN0
  have := isFloat64_intCast (N : Int) (by
    rw [abs_of_nonneg (by positivity)]
    have : (N : Int) ≤ 1000000 := by exact_mod_cast hNle
    omega)
  simpa using this

theorem chain_special_1 : chainOK 1 := by
  have hd : roundFloat64 ((((1 : Nat) : ℚ)) / 100) = (5764607523034235 : ℚ) * (2 : ℚ) ^ ((-59) : ℤ) := by
    have h := roundFloat64_eq (((1 : Nat) : ℚ) / 100) 5764607523034235 (-59)
      (by norm_num) (by norm_num) (by rw [abs_lt]; constructor <;> norm_num)
    simpa using h
  have hf : roundFloat64 (10000 / ((5764607523034235 : ℚ) * (2 : ℚ) ^ ((-59) : ℤ))) = ((1000000 : Nat) : ℚ) := by
    have h := roundFloat64_eq (10000 / ((5764607523034235 : ℚ) * (2 : ℚ) ^ ((-59) : ℤ))) 8589934592000000 (-33)
      (by norm_num) (by norm_num) (by rw [abs_lt]; constructor <;> norm_num)
    rw [h]
    norm_num
  have hN : (1000000 / 1 : Nat) = 1000000 := by norm_num
  unfold chainOK
  rw [hN, hd, hf]
  refine ⟨by positivity, le_rfl, by norm_num⟩

theorem chain_special_2 : chainOK 2 := by
  have hd : roundFloat64 ((((2 : Nat) : ℚ)) / 100) = (5764607523034235 : ℚ) * (2 : ℚ) ^ ((-58) : ℤ) := by
    have h := roundFloat64_eq (((2 : Nat) : ℚ) / 100) 5764607523034235 (-58)
      (by norm_num) (by norm_num) (by rw [abs_lt]; constructor <;> norm_num)
    simpa using h
  have hf : roundFloat64 (10000 / ((5764607523034235 : ℚ) * (2 : ℚ) ^ ((-58) : ℤ))) = ((500000 : Nat) : ℚ) := by
    have h := roundFloat64_eq (10000 / ((5764607523034235 : ℚ) * (2 : ℚ) ^ ((-58) : ℤ))) 8589934592000000 (-34)
      (by norm_num) (by norm_num) (by rw [abs_lt]; constructor <;> norm_num)
    rw [h]
    norm_num
  have hN : (1000000 / 2 : Nat) = 500000 := by norm_num
  unfold chainOK
  rw [hN, hd, hf]
  refine ⟨by positivity, le_rfl, by norm_num⟩

theorem chain_special_4 : chainOK 4 := by
  have hd : roundFloat64 ((((4 : Nat) : ℚ)) / 100) = (5764607523034235 : ℚ) * (2 : ℚ) ^ ((-57) : ℤ) := by
    have h := roundFloat64_eq (((4 : Nat) : ℚ) / 100) 5764607523034235 (-57)
      (by norm_num) (by norm_num) (by rw [abs_lt]; constructor <;> norm_num)
    simpa using h
  have hf : roundFloat64 (10000 / ((5764607523034235 : ℚ) * (2 : ℚ) ^ ((-57) : ℤ))) = ((250000 : Nat) : ℚ) := by
    have h := roundFloat64_eq (10000 / ((5764607523034235 : ℚ) * (2 : ℚ) ^ ((-57) : ℤ))) 8589934592000000 (-35)
      (by norm_num) (by norm_num) (by rw [abs_lt]; constructor <;> norm_num)
    rw [h]
    norm_num
  have hN : (1000000 / 4 : Nat) = 250000 := by norm_num
  unfold chainOK
  rw [hN, hd, hf]
  refine ⟨by positivity, le_rfl, by norm_num⟩

theorem chain_special_8 : chainOK 8 := by
  have hd : roundFloat64 ((((8 : Nat) : ℚ)) / 100) = (5764607523034235 : ℚ) * (2 : ℚ) ^ ((-56) : ℤ) := by
    have h := roundFloat64_eq (((8 : Nat) : ℚ) / 100) 5764607523034235 (-56)
      (by norm_num) (by norm_num) (by rw [abs_lt]; constructor <;> norm_num)
    simpa using h
  have hf : roundFloat64 (10000 / ((5764607523034235 : ℚ) * (2 : ℚ) ^ ((-56) : ℤ))) = ((125000 : Nat) : ℚ) := by
    have h := roundFloat64_eq (10000 / ((5764607523034235 : ℚ) * (2 : ℚ) ^ ((-56) : ℤ))) 8589934592000000 (-36)
      (by norm_num) (by norm_num) (by rw [abs_lt]; constructor <;> norm_num)
    rw [h]
    norm_num
  have hN : (1000000 / 8 : Nat) = 125000 := by norm_num
  unfold chainOK
  rw [hN, hd, hf]
  refine ⟨by positivity, le_rfl, by norm_num⟩

theorem chain_special_16 : chainOK 16 := by
  have hd : roundFloat64 ((((16 : Nat) : ℚ)) / 100) = (5764607523034235 : ℚ) * (2 : ℚ) ^ ((-55) : ℤ) := by
    have h := roundFloat64_eq (((16 : Nat) : ℚ) / 100) 5764607523034235 (-55)
      (by norm_num) (by norm_num) (by rw [abs_lt]; constructor <;> norm_num)
    simpa using h
  have hf : roundFloat64 (10000 / ((5764607523034235 : ℚ) * (2 : ℚ) ^ ((-55) : ℤ))) = ((62500 : Nat) : ℚ) := by
    have h := roundFloat64_eq (10000 / ((5764607523034235 : ℚ) * (2 : ℚ) ^ ((-55) : ℤ))) 8589934592000000 (-37)
      (by norm_num) (by norm_num) (by rw [abs_lt]; constructor <;> norm_num)
    rw [h]
    norm_num
  have hN : (1000000 / 16 : Nat) = 62500 := by norm_num
  unfold chainOK
  rw [hN, hd, hf]
  refine ⟨by positivity, le_rfl, by norm_num⟩

theorem chain_special_32 : chainOK 32 := by
  have hd : roundFloat64 ((((32 : Nat) : ℚ)) / 100) = (5764607523034235 : ℚ) * (2 : ℚ) ^ ((-54) : ℤ) := by
    have h := roundFloat64_eq (((32 : Nat) : ℚ) / 100) 5764607523034235 (-54)
      (by norm_num) (by norm_num) (by rw [abs_lt]; constructor <;> norm_num)
    simpa using h
  have hf : roundFloat64 (10000 / ((5764607523034235 : ℚ) * (2 : ℚ) ^ ((-54) : ℤ))) = ((31250 : Nat) : ℚ) := by
    have h := roundFloat64_eq (10000 / ((5764607523034235 : ℚ) * (2 : ℚ) ^ ((-54) : ℤ))) 8589934592000000 (-38)
      (by norm_num) (by norm_num) (by rw [abs_lt]; constructor <;> norm_num)
    rw [h]
    norm_num
  have hN : (1000000 / 32 : Nat) = 31250 := by norm_num
  unfold chainOK
  rw [hN, hd, hf]
  refine ⟨by positivity, le_rfl, by norm_num⟩

theorem chain_special_64 : chainOK 64 := by
  have hd : roundFloat64 ((((64 : Nat) : ℚ)) / 100) = (5764607523034235 : ℚ) * (2 : ℚ) ^ ((-53) : ℤ) := by
    have h := roundFloat64_eq (((64 : Nat) : ℚ) / 100) 5764607523034235 (-53)
      (by norm_num) (by norm_num) (by rw [abs_lt]; constructor <;> norm_num)
    simpa using h
  have hf : roundFloat64 (10000 / ((5764607523034235 : ℚ) * (2 : ℚ) ^ ((-53) : ℤ))) = ((15625 : Nat) : ℚ) := by
    have h := roundFloat64_eq (10000 / ((5764607523034235 : ℚ) * (2 : ℚ) ^ ((-53) : ℤ))) 8589934592000000 (-39)
      (by norm_num) (by norm_num) (by rw [abs_lt]; constructor <;> norm_num)
    rw [h]
    norm_num
  have hN : (1000000 / 64 : Nat) = 15625 := by norm_num
  unfold chainOK
  rw [hN, hd, hf]
  refine ⟨by positivity, le_rfl, by norm_num⟩

theorem chain_special_5 : chainOK 5 := by
  have hd : roundFloat64 ((((5 : Nat) : ℚ)) / 100) = (7205759403792794 : ℚ) * (2 : ℚ) ^ ((-57) : ℤ) := by
    have h := roundFloat64_eq (((5 : Nat) : ℚ) / 100) 7205759403792794 (-57)
      (by norm_num) (by norm_num) (by rw [abs_lt]; constructor <;> norm_num)
    simpa using h
  have hf : roundFloat64 (10000 / ((7205759403792794 : ℚ) * (2 : ℚ) ^ ((-57) : ℤ))) = ((200000 : Nat) : ℚ) := by
    have h := roundFloat64_eq (10000 / ((7205759403792794 : ℚ) * (2 : ℚ) ^ ((-57) : ℤ))) 6871947673600000 (-35)
      (by norm_num) (by norm_num) (by rw [abs_lt]; constructor <;> norm_num)
    rw [h]
    norm_num
  have hN : (1000000 / 5 : Nat) = 200000 := by norm_num
  unfold chainOK
  rw [hN, hd, hf]
  refine ⟨by positivity, le_rfl, by norm_num⟩

theorem chain_special_10 : chainOK 10 := by
  have hd : roundFloat64 ((((10 : Nat) : ℚ)) / 100) = (7205759403792794 : ℚ) * (2 : ℚ) ^ ((-56) : ℤ) := by
    have h := roundFloat64_eq (((10 : Nat) : ℚ) / 100) 7205759403792794 (-56)
      (by norm_num) (by norm_num) (by rw [abs_lt]; constructor <;> norm_num)
    simpa using h
  have hf : roundFloat64 (10000 / ((7205759403792794 : ℚ) * (2 : ℚ) ^ ((-56) : ℤ))) = ((100000 : Nat) : ℚ) := by
    have h := roundFloat64_eq (10000 / ((7205759403792794 : ℚ) * (2 : ℚ) ^ ((-56) : ℤ))) 6871947673600000 (-36)
      (by norm_num) (by norm_num) (by rw [abs_lt]; constructor <;> norm_num)
    rw [h]
    norm_num
  have hN : (1000000 / 10 : Nat) = 100000 := by norm_num
  unfold chainOK
  rw [hN, hd, hf]
  refine ⟨by positivity, le_rfl, by norm_num⟩

theorem chain_special_20 : chainOK 20 := by
  have hd : roundFloat64 ((((20 : Nat) : ℚ)) / 100) = (7205759403792794 : ℚ) * (2 : ℚ) ^ ((-55) : ℤ) := by
    have h := roundFloat64_eq (((20 : Nat) : ℚ) / 100) 7205759403792794 (-55)
      (by norm_num) (by norm_num) (by rw [abs_lt]; constructor <;> norm_num)
    simpa using h
  have hf : roundFloat64 (10000 / ((7205759403792794 : ℚ) * (2 : ℚ) ^ ((-55) : ℤ))) = ((50000 : Nat) : ℚ) := by
    have h := roundFloat64_eq (10000 / ((7205759403792794 : ℚ) * (2 : ℚ) ^ ((-55) : ℤ))) 6871947673600000 (-37)
      (by norm_num) (by norm_num) (by rw [abs_lt]; constructor <;> norm_num)
    rw [h]
    norm_num
  have hN : (1000000 / 20 : Nat) = 50000 := by norm_num
  unfold chainOK
  rw [hN, hd, hf]
  refine ⟨by positivity, le_rfl, by norm_num⟩

theorem chain_special_40 : chainOK 40 := by
  have hd : roundFloat64 ((((40 : Nat) : ℚ)) / 100) = (7205759403792794 : ℚ) * (2 : ℚ) ^ ((-54) : ℤ) := by
    have h := roundFloat64_eq (((40 : Nat) : ℚ) / 100) 7205759403792794 (-54)
      (by norm_num) (by norm_num) (by rw [abs_lt]; constructor <;> norm_num)
    simpa using h
  have hf : roundFloat64 (10000 / ((7205759403792794 : ℚ) * (2 : ℚ) ^ ((-54) : ℤ))) = ((25000 : Nat) : ℚ) := by
    have h := roundFloat64_eq (10000 / ((7205759403792794 : ℚ) * (2 : ℚ) ^ ((-54) : ℤ))) 6871947673600000 (-38)
      (by norm_num) (by norm_num) (by rw [abs_lt]; constructor <;> norm_num)
    rw [h]
    norm_num
  have hN : (1000000 / 40 : Nat) = 25000 := by norm_num
  unfold chainOK
  rw [hN, hd, hf]
  refine ⟨by positivity, le_rfl, by norm_num⟩

theorem chain_special_80 : chainOK 80 := by
  have hd : roundFloat64 ((((80 : Nat) : ℚ)) / 100) = (7205759403792794 : ℚ) * (2 : ℚ) ^ ((-53) : ℤ) := by
    have h := roundFloat64_eq (((80 : Nat) : ℚ) / 100) 7205759403792794 (-53)
      (by norm_num) (by norm_num) (by rw [abs_lt]; constructor <;> norm_num)
    simpa using h
  have hf : roundFloat64 (10000 / ((7205759403792794 : ℚ) * (2 : ℚ) ^ ((-53) : ℤ))) = ((12500 : Nat) : ℚ) := by
    have h := roundFloat64_eq (10000 / ((7205759403792794 : ℚ) * (2 : ℚ) ^ ((-53) : ℤ))) 6871947673600000 (-39)
      (by norm_num) (by norm_num) (by rw [abs_lt]; constructor <;> norm_num)
    rw [h]
    norm_num
  have hN : (1000000 / 80 : Nat) = 12500 := by norm_num
  unfold chainOK
  rw [hN, hd, hf]
  refine ⟨by positivity, le_rfl, by norm_num⟩

theorem chain_special_160 : chainOK 160 := by
  have hd : roundFloat64 ((((160 : Nat) : ℚ)) / 100) = (7205759403792794 : ℚ) * (2 : ℚ) ^ ((-52) : ℤ) := by
    have h := roundFloat64_eq (((160 : Nat) : ℚ) / 100) 7205759403792794 (-52)
      (by norm_num) (by norm_num) (by rw [abs_lt]; constructor <;> norm_num)
    simpa using h
  have hf : roundFloat64 (10000 / ((7205759403792794 : ℚ) * (2 : ℚ) ^ ((-52) : ℤ))) = ((6250 : Nat) : ℚ) := by
    have h := roundFloat64_eq (10000 / ((7205759403792794 : ℚ) * (2 : ℚ) ^ ((-52) : ℤ))) 6871947673600000 (-40)
      (by norm_num) (by norm_num) (by rw [abs_lt]; constructor <;> norm_num)
    rw [h]
    norm_num
  have hN : (1000000 / 160 : Nat) = 6250 := by norm_num
  unfold chainOK
  rw [hN, hd, hf]
  refine ⟨by positivity, le_rfl, by norm_num⟩

theorem chain_special_320 : chainOK 320 := by
  have hd : roundFloat64 ((((320 : Nat) : ℚ)) / 100) = (7205759403792794 : ℚ) * (2 : ℚ) ^ ((-51) : ℤ) := by
    have h := roundFloat64_eq (((320 : Nat) : ℚ) / 100) 7205759403792794 (-51)
      (by norm_num) (by norm_num) (by rw [abs_lt]; constructor <;> norm_num)
    simpa using h
  have hf : roundFloat64 (10000 / ((7205759403792794 : ℚ) * (2 : ℚ) ^ ((-51) : ℤ))) = ((3125 : Nat) : ℚ) := by
    have h := roundFloat64_eq (10000 / ((7205759403792794 : ℚ) * (2 : ℚ) ^ ((-51) : ℤ))) 6871947673600000 (-41)
      (by norm_num) (by norm_num) (by rw [abs_lt]; constructor <;> norm_num)
    rw [h]
    norm_num
  have hN : (1000000 / 320 : Nat) = 3125 := by norm_num
  unfold chainOK
  rw [hN, hd, hf]
  refine ⟨by positivity, le_rfl, by norm_num⟩

theorem chainOK_of_dvd_25 (m m4 : Nat) (hm : 1 ≤ m) (hdvd : m ∣ 1000000) (h25 : m = 25 * m4) :
    chainOK m := by
  have hN : 1000000 / m * m = 1000000 := Nat.div_mul_cancel hdvd
  obtain ⟨hd, hf⟩ := chain_exact m (1000000 / m) m4 hm hN h25
  unfold chainOK
  rw [hf, hd]
  refine ⟨by positivity, le_rfl, by linarith⟩

theorem chainOK_of_dvd (m : Nat) (hdvd : m ∣ 1000000) : chainOK m := by
  have h106 : (1000000 : Nat) = 2 ^ 6 * 5 ^ 6 := by norm_num
  have hdvd0 := hdvd
  rw [h106] at hdvd
  obtain ⟨y, z, hy, hz, rfl⟩ := Nat.dvd_mul.mp hdvd
  obtain ⟨a, ha, rfl⟩ := (Nat.dvd_prime_pow Nat.prime_two).mp hy
  obtain ⟨b, hb, rfl⟩ := (Nat.dvd_prime_pow Nat.prime_five).mp hz
  by_cases hb2 : 2 ≤ b
  · obtain ⟨b', rfl⟩ : ∃ b', b = b' + 2 := ⟨b - 2, by omega⟩
    exact chainOK_of_dvd_25 _ (2 ^ a * 5 ^ b') (Nat.pos_of_ne_zero (by positivity)) hdvd0
      (by ring)
  · have hb1 : b = 0 ∨ b = 1 := by omega
    rcases hb1 with rfl | rfl
    · interval_cases a
      · exact chain_special_1
      · exact chain_special_2
      · exact chain_special_4
      · exact chain_special_8
      · exact chain_special_16
      · exact chain_special_32
      · exact chain_special_64
    · interval_cases a
      · exact chain_special_5
      · exact chain_special_10
      · exact chain_special_20
      · exact chain_special_40
      · exact chain_special_80
      · exact chain_special_160
      · exact chain_special_320

theorem chainOK_of_le (m : Nat) (hm : 1 ≤ m) (hm2 : m ≤ 1000000) : chainOK m := by
  by_cases hr : 1000000 % m = 0
  · exact chainOK_of_dvd m (Nat.dvd_of_mod_eq_zero hr)
  · have hdm := Nat.div_add_mod 1000000 m
    have hlt : 1000000 % m < m := Nat.mod_lt _ (by omega)
    exact chain_bounds_of_not_dvd m (1000000 / m) (1000000 % m) hm hm2
      (by rw [Nat.mul_comm]; exact hdm) (by omega) hlt

/-- The sparse line spacing computed by the pattern setup, for a percentage in `1..100`
and an extrusion width in `1..10000`. -/
theorem infillPatternSetup_eq (o : Options) (min max : MicroPoint) (p w : Nat)
    (hp : o.Print.InfillPercent = p) (hw : o.Printer.ExtrusionWidth = w)
    (hp1 : 1 ≤ p) (hp2 : p ≤ 100) (hw1 : 1 ≤ w) (hw2 : w ≤ 10000) :
    infillPatternSetup o min max
      = SetupResult.linearPattern min max ((1000000 / (10000 / w * p) : Nat) : Int) := by
  have hL1 : 1 ≤ 10000 / w := (Nat.le_div_iff_mul_le (by omega)).mpr (by omega)
  have hL2 : 10000 / w ≤ 10000 := Nat.div_le_self _ _
  have hm1 : 1 ≤ 10000 / w * p := Nat.mul_pos hL1 hp1
  have hm2 : 10000 / w * p ≤ 1000000 := by
    calc 10000 / w * p ≤ 10000 * 100 := Nat.mul_le_mul hL2 hp2
      _ = 1000000 := by norm_num
  obtain ⟨hd, hf1, hf2⟩ := chainOK_of_le _ hm1 hm2
  have hfloatNat : ∀ n : Nat, 1 ≤ n → n ≤ 1000000 → roundFloat64 (n : ℚ) = n := by
    intro n h1 h2
    apply roundFloat64_of_isFloat64 _ (by exact_mod_cast h1)
    have := isFloat64_intCast (n : Int) (by
      rw [abs_of_nonneg (by positivity)]
      have : (n : Int) ≤ 1000000 := by exact_mod_cast h2
      omega)
    simpa using this
  have hLq : float64OfInt (Int.tdiv 10000 o.Printer.ExtrusionWidth) = ((10000 / w : Nat) : ℚ) := by
    rw [hw]
    have : Int.tdiv 10000 (w : Int) = ((10000 / w : Nat) : Int) := (Int.ofNat_tdiv 10000 w).symm
    rw [this]
    unfold float64OfInt
    exact_mod_cast hfloatNat _ hL1 (by omega)
  have hpq : float64OfInt o.Print.InfillPercent = (p : ℚ) := by
    rw [hp]
    unfold float64OfInt
    exact_mod_cast hfloatNat _ hp1 (by omega)
  have hmul : float64Mul ((10000 / w : Nat) : ℚ) (p : ℚ) = ((10000 / w * p : Nat) : ℚ) := by
    unfold float64Mul
    have := hfloatNat _ hm1 hm2
    push_cast at this ⊢
    exact this
  have h10 : float64OfInt 10000 = (10000 : ℚ) := by
    unfold float64OfInt
    exact_mod_cast hfloatNat 10000 (by norm_num) (by norm_num)
  have hpne : o.Print.InfillPercent ≠ 0 := by rw [hp]; exact_mod_cast (by omega : p ≠ 0)
  have hwne : o.Printer.ExtrusionWidth ≠ 0 := by rw [hw]; exact_mod_cast (by omega : w ≠ 0)
  have hconv := micrometerOfFloat64_eq _ (1000000 / (10000 / w * p))
    (Nat.div_le_self _ _) hf1 hf2
  unfold infillPatternSetup
  rw [if_pos hpne, if_neg hwne, hLq, hpq, hmul, h10]
  simp only [float64Div, if_neg (by norm_num : (100 : ℚ) ≠ 0), if_neg hd.ne', hconv]

/-! ### Claim on the sparse line spacing -/

/-- C8 (counterexample): for `ExtrusionWidth = 300` and `InfillPercent = 20` the setup
passes 1515 to the linear pattern, while `floor(100 * 300 / 20)` is 1500; for
`ExtrusionWidth = 20000` the number of lines is 0 and the float64 quotient is not finite. -/
theorem infillPatternSetup_truncates_line_count :
    infillPatternSetup ⟨⟨50, 20⟩, ⟨300⟩⟩ ⟨0, 0⟩ ⟨10, 10⟩
      = SetupResult.linearPattern ⟨0, 0⟩ ⟨10, 10⟩ 1515
    ∧ (100 * 300 / 20 : Int) = 1500
    ∧ infillPatternSetup ⟨⟨50, 20⟩, ⟨20000⟩⟩ ⟨0, 0⟩ ⟨10, 10⟩ = SetupResult.unspecified := by
  refine ⟨?_, by norm_num, ?_⟩
  · have h := infillPatternSetup_eq ⟨⟨50, 20⟩, ⟨300⟩⟩ ⟨0, 0⟩ ⟨10, 10⟩ 20 300 rfl rfl
      (by norm_num) (by norm_num) (by norm_num) (by norm_num)
    rw [h]
    norm_num
  · have h0 : Int.tdiv 10000 20000 = 0 := by decide
    simp [infillPatternSetup, h0, float64Div, float64Mul, float64OfInt, roundFloat64]

/-- C8 (amended): for `1 <= InfillPercent <= 100` and `1 <= ExtrusionWidth <= 10000` the
setup passes `floor(10^6 / (floor(10000 / ExtrusionWidth) * InfillPercent))` to the linear
pattern, which is `floor(100 * ExtrusionWidth / InfillPercent)` when `ExtrusionWidth`
divides 10000; for the defaults (400 and 20) it is 2000. -/
theorem infillPatternSetup_spacing (o : Options) (min max : MicroPoint)
    (hp1 : 1 ≤ o.Print.InfillPercent) (hp2 : o.Print.InfillPercent ≤ 100)
    (hw1 : 1 ≤ o.Printer.ExtrusionWidth) (hw2 : o.Printer.ExtrusionWidth ≤ 10000) :
    infillPatternSetup o min max
      = SetupResult.linearPattern min max
          (1000000 / (10000 / o.Printer.ExtrusionWidth * o.Print.InfillPercent))
    ∧ (o.Printer.ExtrusionWidth ∣ 10000 →
        1000000 / (10000 / o.Printer.ExtrusionWidth * o.Print.InfillPercent)
          = 100 * o.Printer.ExtrusionWidth / o.Print.InfillPercent)
    ∧ infillPatternSetup defaultOptions min max = SetupResult.linearPattern min max 2000 := by
  obtain ⟨p, hp⟩ := Int.eq_ofNat_of_zero_le (by omega : 0 ≤ o.Print.InfillPercent)
  obtain ⟨w, hw⟩ := Int.eq_ofNat_of_zero_le (by omega : 0 ≤ o.Printer.ExtrusionWidth)
  have hpn1 : 1 ≤ p := by omega
  have hpn2 : p ≤ 100 := by omega
  have hwn1 : 1 ≤ w := by omega
  have hwn2 : w ≤ 10000 := by omega
  refine ⟨?_, ?_, ?_⟩
  · rw [infillPatternSetup_eq o min max p w hp hw hpn1 hpn2 hwn1 hwn2, hp, hw]
    norm_cast
  · rw [hp, hw]
    intro hdvd
    have hdvdn : w ∣ 10000 := by exact_mod_cast hdvd
    obtain ⟨q, hq⟩ := hdvdn
    have hq0 : 0 < q := by
      rcases Nat.eq_zero_or_pos q with h | h
      · rw [h] at hq; omega
      · exact h
    have hdiv : 10000 / w = q := by
      rw [hq]; exact Nat.mul_div_cancel_left q (by omega)
    have key : 1000000 / (10000 / w * p) = 100 * w / p := by
      rw [hdiv]
      have : 1000000 = 100 * w * q := by rw [Nat.mul_assoc, ← hq]
      rw [this, Nat.mul_comm q p]
      exact Nat.mul_div_mul_right _ _ hq0
    exact_mod_cast key
  · have h := infillPatternSetup_eq defaultOptions min max 20 400 rfl rfl
      (by norm_num) (by norm_num) (by norm_num) (by norm_num)
    rw [h]
    norm_num

/-- C8 (witness of the amended claim): `ExtrusionWidth = 300`, `InfillPercent = 20`. -/
theorem infillPatternSetup_spacing_witness :
    infillPatternSetup ⟨⟨50, 20⟩, ⟨300⟩⟩ ⟨0, 0⟩ ⟨10, 10⟩
      = SetupResult.linearPattern ⟨0, 0⟩ ⟨10, 10⟩ (1000000 / (10000 / 300 * 20)) :=
  (infillPatternSetup_spacing ⟨⟨50, 20⟩, ⟨300⟩⟩ ⟨0, 0⟩ ⟨10, 10⟩ (by decide) (by decide)
    (by decide) (by decide)).1

end Slicing
